import Mathlib

/-!
# Gross-to-net scraper (main.go)

A shallow embedding of the single source file of the repository:

* `GetTableData` with its inner closure `extractText` (the table extractor),
* `GetTaxDataRange` (the range generator driving one fetch per sample),
* `GetTaxData` (the fetcher, with the form payload it submits),
* `WriteTaxResults` (the JSON-lines writer) and `json.Marshal` on a record,
* `main` (the whole run).

Conventions of the embedding.

* A Go `string` is a finite sequence of bytes, `GoString`. The string literals of
  the source are the UTF-8 encodings of their text, `utf8`. The texts of a parsed
  document are arbitrary byte sequences: `html.Parse` does not validate UTF-8.
  Error texts, the form payload and the output file are kept as text, `String`.
* `*html.Node` is a finite tree: `FirstChild`/`NextSibling` chains become the
  list `children`.
* `float64` values are kept abstract: the extractor is parametric in the value
  type `F` and in `ParseFloat : GoString → Option F` (the result of
  `strconv.ParseFloat(s, 64)`, `none` when it reports an error).
* `log.Fatal` and runtime panics end the process; they become `Except.error`.
* Go `int` is the 64-bit two's-complement integer: arithmetic wraps.
-/

namespace GrossToNet

/-! ## Data model -/

/-- Cadence of the table layout (lines 17-22). -/
inductive Cadence where
  | Monthly
  | Yearly
  deriving DecidableEq, Repr

/-- The node kinds of `html.NodeType`. -/
inductive NodeType where
  | ErrorNode
  | TextNode
  | DocumentNode
  | ElementNode
  | CommentNode
  | DoctypeNode
  | RawNode
  deriving DecidableEq, Repr

/-- A Go `string`: a finite sequence of bytes. -/
abbrev GoString := List UInt8

/-- The UTF-8 encoding of a code point, as the numbers of its bytes: one byte below
`0x80`, two below `0x800`, three below `0x10000`, four above. -/
def runeBytes (v : Nat) : List Nat :=
  if v < 0x80 then [v]
  else if v < 0x800 then [0xC0 + v / 0x40, 0x80 + v % 0x40]
  else if v < 0x10000 then [0xE0 + v / 0x1000, 0x80 + v / 0x40 % 0x40, 0x80 + v % 0x40]
  else [0xF0 + v / 0x40000, 0x80 + v / 0x1000 % 0x40, 0x80 + v / 0x40 % 0x40, 0x80 + v % 0x40]

/-- The bytes of the UTF-8 encoding of a character. -/
def encodeRune (c : Char) : GoString :=
  (runeBytes c.toNat).map UInt8.ofNat

/-- The Go `string` of a text: the concatenation of the UTF-8 encodings of its characters.
A Go `string` is valid UTF-8 exactly when it is the `utf8` of a text. -/
def utf8 (s : String) : GoString :=
  s.data.flatMap encodeRune

/-- A continuation byte of UTF-8, `10xxxxxx`. -/
def isContinuation (b : UInt8) : Bool :=
  decide (0x80 ≤ b.toNat ∧ b.toNat < 0xC0)

/-- An attribute of an element, `html.Attribute`. -/
structure Attribute where
  Namespace : GoString
  Key : GoString
  Val : GoString
  deriving DecidableEq, Repr

/-- A node of the parsed document, `html.Node`, with its children in sibling order. -/
inductive Node where
  | mk («Type» : NodeType) (Data : GoString) (Attr : List Attribute) (children : List Node)

/-- Field `Type` of a node. -/
def Node.«Type» : Node → NodeType
  | .mk t _ _ _ => t

/-- Field `Data` of a node: the tag name of an element, the text of a text node. -/
def Node.Data : Node → GoString
  | .mk _ d _ _ => d

/-- Field `Attr` of a node. -/
def Node.Attr : Node → List Attribute
  | .mk _ _ a _ => a

/-- The children of a node, from `FirstChild` along `NextSibling`. -/
def Node.children : Node → List Node
  | .mk _ _ _ cs => cs

/-- Field `FirstChild` of a node, `none` for the nil pointer. -/
def Node.FirstChild (n : Node) : Option Node :=
  n.children.head?

/-- The record of twelve figures (lines 29-42), over the value type `F`. -/
structure TaxResult (F : Type) where
  Brutto : F
  GeldwerterVorteil : F
  «Solidaritätszuschlag» : F
  Kirchensteuer : F
  Lohnsteuer : F
  Steuern : F
  Rentenversicherung : F
  Arbeitslosenversicherung : F
  Krankenversicherung : F
  Pflegeversicherung : F
  SozialAbgaben : F
  Netto : F
  deriving DecidableEq, Repr

/-- The value of `reflect.TypeOf(TaxResult{}).NumField()`: the struct has twelve fields. -/
def TaxResult.NumField : Nat := 12

/-- The ways in which the process ends without a result. -/
inductive Failure where
  /-- Failure `log.Fatal(err)` at line 127: `strconv.ParseFloat` rejected the text. -/
  | parseFloat (input : GoString)
  /-- Failure `log.Fatal("Row amount mismatch!")` at line 143. -/
  | rowAmountMismatch
  /-- Runtime panic: nil pointer dereference in `n.FirstChild.Data` at line 109. -/
  | nilDereference
  /-- Runtime panic: index out of range in `results[i]` at lines 147-158. -/
  | indexOutOfRange
  /-- Failure `log.Fatal(err)` at line 78: the request failed. -/
  | network (err : String)
  /-- Failure `log.Fatalln` at line 84: the response body did not parse. -/
  | htmlParse (err : String)
  deriving DecidableEq, Repr

deriving instance DecidableEq for Except

/-- The text a fatal failure logs, where the source fixes it; the texts of the errors of
the standard library and of the runtime are not modelled. -/
def Failure.message : Failure → Option String
  | .rowAmountMismatch => some "Row amount mismatch!"
  | .htmlParse err => some ("Error parsing HTML: " ++ err)
  | .network err => some err
  | .parseFloat _ => none
  | .nilDereference => none
  | .indexOutOfRange => none

/-! ## String helpers of the standard library -/

/-- Worker of `strings.Replace(s, old, new, -1)` for a non-empty `old`: scans left to
right, replaces each leftmost non-overlapping occurrence of the byte sequence `old`. `skip`
counts the bytes of the occurrence just replaced that are still to be dropped. -/
def replaceFrom (old new : GoString) : Nat → GoString → GoString
  | _, [] => []
  | skip + 1, _ :: cs => replaceFrom old new skip cs
  | 0, c :: cs =>
    if old.isPrefixOf (c :: cs) then new ++ replaceFrom old new (old.length - 1) cs
    else c :: replaceFrom old new 0 cs

/-- The function `strings.ReplaceAll(s, old, new)` for a non-empty `old`, the only way the
source calls it: every non-overlapping occurrence of the bytes `old` in `s`, from the left,
is replaced by `new`. -/
def ReplaceAll (s old new : GoString) (_nonempty : old ≠ []) : GoString :=
  if old = new then s else replaceFrom old new 0 s

/-- The call `fmt.Sprintf("%v %v", a, b)` on two strings. -/
def Sprintf_v_v (a b : GoString) : GoString :=
  a ++ utf8 " " ++ b

/-! ## Table extractor -/

/-- The marker of a regular row (lines 91, 94-95). -/
def regular_row (cadence : Cadence) : GoString :=
  if cadence = Cadence.Monthly then Sprintf_v_v (utf8 "right_column") (utf8 "grey_bg")
  else utf8 "right_column"

/-- The marker of the final row (lines 92, 94, 96). -/
def final_row (cadence : Cadence) : GoString :=
  if cadence = Cadence.Monthly then Sprintf_v_v (utf8 "right_column orange big") (utf8 "grey_bg")
  else utf8 "right_column orange big"

/-- The test of line 105. In Go `&&` binds tighter than `||`. -/
def attrMatches (regular_row final_row : GoString) (attr : Attribute) : Bool :=
  (attr.Key == utf8 "class" && attr.Val == regular_row) || attr.Val == final_row

/-- The loop of lines 112-116 over the children of a final-row cell: `content` is
overwritten by the data of the first child of every child named `b` that has a child. -/
def boldContent : List Node → GoString → GoString
  | [], content => content
  | c :: cs, content =>
    match c.Data == utf8 "b", c.FirstChild with
    | true, some t => boldContent cs t.Data
    | _, _ => boldContent cs content

/-- The raw text of a matched cell (lines 106-117), or the panic of line 109. -/
def cellContent (regular_row final_row : GoString) (n : Node) (attr : Attribute) :
    Except Failure GoString :=
  if attr.Val = regular_row then
    match n.FirstChild with
    | none => .error .nilDereference
    | some c => .ok c.Data
  else if attr.Val = final_row then
    .ok (boldContent n.children (utf8 ""))
  else
    .ok (utf8 "")

/-- The normalization of lines 120-124. -/
def normalize (content : GoString) : GoString :=
  let content2 := ReplaceAll content (utf8 "\u00a0") (utf8 "") (by decide)
  let content2 := ReplaceAll content2 (utf8 " ") (utf8 "") (by decide)
  let content2 := ReplaceAll content2 (utf8 "€") (utf8 "") (by decide)
  let content2 := ReplaceAll content2 (utf8 ".") (utf8 "") (by decide)
  ReplaceAll content2 (utf8 ",") (utf8 ".") (by decide)

/-- The characters the normalization removes: U+00A0, the space, the euro sign, the period. -/
def isStripped (c : Char) : Bool :=
  c == '\u00a0' || c == ' ' || c == '€' || c == '.'

/-- The replacement of the decimal comma by a period. -/
def commaToPeriod (c : Char) : Char :=
  if c = ',' then '.' else c

/-- Normalization as the specification words it, on a text: the text with every stripped
character removed, then every comma replaced by a period. -/
def normalizeSpec (s : String) : String :=
  ⟨(s.data.filter (fun c => !isStripped c)).map commaToPeriod⟩

section Extractor

variable {F : Type} (ParseFloat : GoString → Option F)

/-- The value appended for one matching attribute (lines 106-129). -/
def cellValue (regular_row final_row : GoString) (n : Node) (attr : Attribute) :
    Except Failure F :=
  match cellContent regular_row final_row n attr with
  | .error e => .error e
  | .ok content =>
    match ParseFloat (normalize content) with
    | none => .error (.parseFloat (normalize content))
    | some value => .ok value

/-- The loop over the attributes of a `td` element (lines 104-132); `results` is the
slice captured by the closure. -/
def extractAttrs (regular_row final_row : GoString) (n : Node) :
    List Attribute → List F → Except Failure (List F)
  | [], results => .ok results
  | attr :: rest, results =>
    if attrMatches regular_row final_row attr then
      match cellValue ParseFloat regular_row final_row n attr with
      | .error e => .error e
      | .ok value => extractAttrs regular_row final_row n rest (results ++ [value])
    else extractAttrs regular_row final_row n rest results

mutual

/-- The closure `extractText` (lines 102-137), threading the captured slice `results`. -/
def extractText (regular_row final_row : GoString) : Node → List F → Except Failure (List F)
  | .mk t d attrs cs, results =>
    match (if t = NodeType.ElementNode ∧ d = utf8 "td"
           then extractAttrs ParseFloat regular_row final_row (.mk t d attrs cs) attrs results
           else .ok results) with
    | .error e => .error e
    | .ok results1 => extractChildren regular_row final_row cs results1

/-- The loop of lines 134-136 over the children of a node. -/
def extractChildren (regular_row final_row : GoString) :
    List Node → List F → Except Failure (List F)
  | [], results => .ok results
  | c :: cs, results =>
    match extractText regular_row final_row c results with
    | .error e => .error e
    | .ok results1 => extractChildren regular_row final_row cs results1

end

/-- The indexing `results[i]` of a slice, with its range check. -/
def index (results : List F) (i : Nat) : Except Failure F :=
  match results[i]? with
  | some v => .ok v
  | none => .error .indexOutOfRange

/-- The sequence `results` after `extractText(doc)` (line 139). -/
def extractValues (doc : Node) (cadence : Cadence) : Except Failure (List F) :=
  extractText ParseFloat (regular_row cadence) (final_row cadence) doc []

/-- The function `GetTableData` (lines 90-160). -/
def GetTableData (doc : Node) (cadence : Cadence) : Except Failure (TaxResult F) :=
  match extractValues ParseFloat doc cadence with
  | .error e => .error e
  | .ok results =>
    if results.length ≠ TaxResult.NumField then .error .rowAmountMismatch
    else do
      let v0 ← index results 0
      let v1 ← index results 1
      let v2 ← index results 2
      let v3 ← index results 3
      let v4 ← index results 4
      let v5 ← index results 5
      let v6 ← index results 6
      let v7 ← index results 7
      let v8 ← index results 8
      let v9 ← index results 9
      let v10 ← index results 10
      let v11 ← index results 11
      pure
        { Brutto := v0
          GeldwerterVorteil := v1
          «Solidaritätszuschlag» := v2
          Kirchensteuer := v3
          Lohnsteuer := v4
          Steuern := v5
          Rentenversicherung := v6
          Arbeitslosenversicherung := v7
          Krankenversicherung := v8
          Pflegeversicherung := v9
          SozialAbgaben := v10
          Netto := v11 }

end Extractor

/-! ## The cells of a document, in document order -/

/-- The pairs (cell, attribute) a single node contributes under an attribute test: for a
`td` element one pair for each of its attributes that passes the test, in attribute
order; nothing for any other node. -/
def cellsOf (test : Attribute → Bool) (n : Node) : List (Node × Attribute) :=
  if n.«Type» = NodeType.ElementNode ∧ n.Data = utf8 "td"
  then (n.Attr.filter test).map (fun attr => (n, attr))
  else []

mutual

/-- Depth-first pre-order listing of the pairs of a tree: those of the node itself, then
those of its children from first to last. -/
def preorderCells (test : Attribute → Bool) : Node → List (Node × Attribute)
  | .mk t d attrs cs => cellsOf test (.mk t d attrs cs) ++ preorderCellsList test cs

/-- Pre-order listing of the pairs of a sequence of sibling trees. -/
def preorderCellsList (test : Attribute → Bool) : List Node → List (Node × Attribute)
  | [] => []
  | c :: cs => preorderCells test c ++ preorderCellsList test cs

end

/-- The pairs (cell, attribute) that pass the test of line 105, in document order. -/
def matchedCells (regular_row final_row : GoString) (doc : Node) : List (Node × Attribute) :=
  preorderCells (attrMatches regular_row final_row) doc

/-- The qualification of an attribute as the specification words it: the key is `class`
and the value is one of the two markers. -/
def classMarker (regular_row final_row : GoString) (attr : Attribute) : Bool :=
  attr.Key == utf8 "class" && (attr.Val == regular_row || attr.Val == final_row)

/-- The pairs (cell, class attribute) that qualify in the words of the specification, in
document order. -/
def qualifyingCells (regular_row final_row : GoString) (doc : Node) : List (Node × Attribute) :=
  preorderCells (classMarker regular_row final_row) doc

/-- An attribute that carries the final marker under a key other than `class`. -/
def strayMarker (final_row : GoString) (attr : Attribute) : Bool :=
  attr.Val == final_row && !(attr.Key == utf8 "class")

/-- The four marker strings of one cadence or the other. -/
def isMarker (cadence : Cadence) (val : GoString) : Bool :=
  val == regular_row cadence || val == final_row cadence

/-- A class attribute whose value is a marker of some cadence but not of `cadence`. -/
def foreignAttr (cadence : Cadence) (attr : Attribute) : Bool :=
  attr.Key == utf8 "class"
    && (isMarker Cadence.Monthly attr.Val || isMarker Cadence.Yearly attr.Val)
    && !isMarker cadence attr.Val

/-- The `td` cells of the document carry only marker classes of `cadence`: none of their
class attributes has a marker of the other cadence as its value. -/
def carriesOnly (cadence : Cadence) (doc : Node) : Prop :=
  (preorderCells (foreignAttr cadence) doc).isEmpty = true

/-- The values of the class attributes of the `td` cells of a document, in document
order. -/
def tdClasses (doc : Node) : List GoString :=
  (preorderCells (fun attr => attr.Key == utf8 "class") doc).map (fun p => p.2.Val)

instance (cadence : Cadence) (doc : Node) : Decidable (carriesOnly cadence doc) :=
  inferInstanceAs (Decidable ((preorderCells (foreignAttr cadence) doc).isEmpty = true))

/-- No `td` cell of the document carries the final marker under a key other than
`class`. -/
def noStrayMarker (cadence : Cadence) (doc : Node) : Prop :=
  (preorderCells (strayMarker (final_row cadence)) doc).isEmpty = true

instance (cadence : Cadence) (doc : Node) : Decidable (noStrayMarker cadence doc) :=
  inferInstanceAs
    (Decidable ((preorderCells (strayMarker (final_row cadence)) doc).isEmpty = true))

section Values

variable {F : Type} (ParseFloat : GoString → Option F)

/-- Appending the values of a sequence of pairs, one after the other, ending at the first
failure. -/
def appendValues (regular_row final_row : GoString) :
    List (Node × Attribute) → List F → Except Failure (List F)
  | [], results => .ok results
  | p :: rest, results =>
    match cellValue ParseFloat regular_row final_row p.1 p.2 with
    | .error e => .error e
    | .ok value => appendValues regular_row final_row rest (results ++ [value])

/-- The text of every matched cell parses as a number. -/
def allCellsParse (doc : Node) (cadence : Cadence) : Prop :=
  ∀ p ∈ matchedCells (regular_row cadence) (final_row cadence) doc,
    (cellValue ParseFloat (regular_row cadence) (final_row cadence) p.1 p.2).isOk = true

instance (doc : Node) (cadence : Cadence) :
    Decidable (allCellsParse ParseFloat doc cadence) :=
  inferInstanceAs (Decidable (∀ p ∈ matchedCells (regular_row cadence) (final_row cadence) doc,
    (cellValue ParseFloat (regular_row cadence) (final_row cadence) p.1 p.2).isOk = true))

end Values

/-! ## Plain decimal text -/

/-- The number written by a string of decimal digits, most significant first. -/
def digitsValue (ds : List Char) : Nat :=
  ds.foldl (fun acc c => 10 * acc + (c.toNat - '0'.toNat)) 0

/-- The magnitude written by `digits[.digits]` with at least one digit. -/
def parseUnsigned (cs : List Char) : Option ℚ :=
  let whole := cs.takeWhile Char.isDigit
  match cs.dropWhile Char.isDigit with
  | [] => if whole = [] then none else some (mkRat (digitsValue whole) 1)
  | '.' :: frac =>
    if frac.all Char.isDigit && !(whole.isEmpty && frac.isEmpty)
    then some (mkRat (digitsValue (whole ++ frac)) (10 ^ frac.length))
    else none
  | _ => none

/-- The real number that `strconv.ParseFloat` reads from plain decimal text
`[+-]digits[.digits]`; the `float64` it returns is the nearest one to this number, and is
this number when it is representable. Text of any other shape (exponents, hexadecimal,
`Inf`, `NaN`) is outside this fragment and mapped to `none`; the fragment is used for
concrete documents only. Each byte is read as the character of its number, so a byte that
is not ASCII is never a digit. -/
def parseDecimal (s : GoString) : Option ℚ :=
  match s.map (fun b => Char.ofNat b.toNat) with
  | '-' :: cs => (parseUnsigned cs).map (fun q => -q)
  | '+' :: cs => parseUnsigned cs
  | cs => parseUnsigned cs

/-! ## Building documents -/

/-- A text node. -/
def textNode (s : String) : Node :=
  .mk NodeType.TextNode (utf8 s) [] []

/-- An element node. -/
def element (tag : String) (attrs : List Attribute) (cs : List Node) : Node :=
  .mk NodeType.ElementNode (utf8 tag) attrs cs

/-- The attribute `key="val"`. -/
def mkAttr (key val : String) : Attribute :=
  { Namespace := utf8 "", Key := utf8 key, Val := utf8 val }

/-- A regular cell `<td class=marker>text</td>`. -/
def regularCell (marker text : String) : Node :=
  element "td" [mkAttr "class" marker] [textNode text]

/-- A final cell `<td class=marker><b>text</b></td>`. -/
def finalCell (marker text : String) : Node :=
  element "td" [mkAttr "class" marker] [element "b" [] [textNode text]]

/-- A table row with a label cell and a value cell. -/
def row (label : String) (cell : Node) : Node :=
  element "tr" [] [element "td" [mkAttr "class" "left_column"] [textNode label], cell]

/-- The stub document of the end-to-end scenario: ten regular cells from
`50.000,00 €` to `45.500,00 €`, then two bold-wrapped final cells. -/
def stubDocument (regular final : String) : Node :=
  .mk NodeType.DocumentNode (utf8 "") []
    [element "html" [] [element "body" [] [element "table" [] [
      row "Brutto" (regularCell regular "50.000,00\u00a0€"),
      row "Geldwerter Vorteil" (regularCell regular "0,00 €"),
      row "Solidaritätszuschlag" (regularCell regular "12,34\u00a0€"),
      row "Kirchensteuer" (regularCell regular "56,78\u00a0€"),
      row "Lohnsteuer" (regularCell regular "7.000,00\u00a0€"),
      row "Steuern" (regularCell regular "7.069,12\u00a0€"),
      row "Rentenversicherung" (regularCell regular "4.650,00\u00a0€"),
      row "Arbeitslosenversicherung" (regularCell regular "650,00 €"),
      row "Krankenversicherung" (regularCell regular "4.000,00\u00a0€"),
      row "Pflegeversicherung" (regularCell regular "45.500,00\u00a0€"),
      row "Sozialabgaben" (finalCell final "4.400,00\u00a0€"),
      row "Netto" (finalCell final "35.420,50\u00a0€")]]]]

/-- The stub document with the yearly markers. -/
def yearlyStub : Node :=
  stubDocument "right_column" "right_column orange big"

/-- The stub document with the monthly markers. -/
def monthlyStub : Node :=
  stubDocument "right_column grey_bg" "right_column orange big grey_bg"

/-- A cell without class attribute whose `title` has the yearly final marker as value:
`<td title="right_column orange big"><b>1,00 €</b></td>`. -/
def strayCell : Node :=
  element "td" [mkAttr "title" "right_column orange big"] [element "b" [] [textNode "1,00 €"]]

/-- A cell with a class and a `title`, with bold text:
`<td class=cls title=title><b>1,00 €</b></td>`. -/
def titledCell (cls title : String) : Node :=
  element "td" [mkAttr "class" cls, mkAttr "title" title]
    [element "b" [] [textNode "1,00 €"]]

/-- A document of twelve cells that have the monthly regular marker as class and the
yearly final marker as `title`. -/
def monthlyTitled : Node :=
  .mk NodeType.DocumentNode (utf8 "") []
    (List.replicate 12 (titledCell "right_column grey_bg" "right_column orange big"))

/-- A document of twelve cells that have the yearly regular marker as class and the
monthly final marker as `title`. -/
def yearlyTitled : Node :=
  .mk NodeType.DocumentNode (utf8 "") []
    (List.replicate 12 (titledCell "right_column" "right_column orange big grey_bg"))

/-- The record whose twelve figures are 1. -/
def unitRecord : TaxResult ℚ :=
  { Brutto := 1
    GeldwerterVorteil := 1
    «Solidaritätszuschlag» := 1
    Kirchensteuer := 1
    Lohnsteuer := 1
    Steuern := 1
    Rentenversicherung := 1
    Arbeitslosenversicherung := 1
    Krankenversicherung := 1
    Pflegeversicherung := 1
    SozialAbgaben := 1
    Netto := 1 }

/-- A regular cell whose text is not valid UTF-8, the bytes `C2 20 A0 31`: a space between
the two bytes of U+00A0, then the digit `1`. -/
def joinedCell : Node :=
  element "td" [mkAttr "class" "right_column"]
    [.mk NodeType.TextNode [0xC2, 0x20, 0xA0, 0x31] [] []]

/-- A regular cell without child nodes: `<td class="right_column"></td>`. -/
def emptyCell : Node :=
  element "td" [mkAttr "class" "right_column"] []

/-- A cell with the class attribute twice:
`<td class="right_column" class="right_column">1,00 €</td>`. -/
def doubleCell : Node :=
  element "td" [mkAttr "class" "right_column", mkAttr "class" "right_column"]
    [textNode "1,00 €"]

/-- A regular cell that also has the final marker as the value of its `title`:
`<td class="right_column" title="right_column orange big">1,00 €<b>2,00 €</b></td>`. -/
def twoMarkerCell : Node :=
  element "td" [mkAttr "class" "right_column", mkAttr "title" "right_column orange big"]
    [textNode "1,00 €", element "b" [] [textNode "2,00 €"]]

/-! ## Range generator -/

/-- The largest value of Go's `int`. -/
def maxInt : Int := 2 ^ 63 - 1

/-- The smallest value of Go's `int`. -/
def minInt : Int := -(2 ^ 63)

/-- Reduction of an integer to the 64-bit two's-complement range. -/
def wrapInt (x : Int) : Int :=
  (x + 2 ^ 63) % 2 ^ 64 - 2 ^ 63

/-- How a run of `GetTaxDataRange` stands: `calls` are the gross values passed to
`GetTaxData` so far, in order. -/
inductive RangeOutcome (R : Type) where
  /-- The loop ended and the slice `results` was returned. -/
  | returned (calls : List Int) (results : List R)
  /-- The last call in `calls` ended the process. -/
  | fatal (calls : List Int) (e : Failure)
  /-- The loop is still running after the allotted number of condition checks. -/
  | running (calls : List Int) (results : List R)
  deriving DecidableEq, Repr

section Range

variable {R : Type} (GetTaxData : Nat → Int → Cadence → Except Failure R)

/-- The loop of lines 47-49 from the state `gross`, `results`. `GetTaxData k g c` is the
outcome of the call `GetTaxData(g, c)` issued after `k` earlier calls. The first argument
bounds the number of evaluations of the loop condition. -/
def rangeLoop (stop : Int) (cadence : Cadence) :
    Nat → Int → List Int → List R → RangeOutcome R
  | 0, _, calls, results => .running calls results
  | fuel + 1, gross, calls, results =>
    if gross ≤ stop then
      match GetTaxData calls.length gross cadence with
      | .error e => .fatal (calls ++ [gross]) e
      | .ok r =>
        rangeLoop stop cadence fuel (wrapInt (gross + 1000)) (calls ++ [gross]) (results ++ [r])
    else .returned calls results

/-- The function `GetTaxDataRange` (lines 45-51), run for at most `fuel` evaluations of
the loop condition. -/
def GetTaxDataRange (fuel : Nat) (start stop : Int) (cadence : Cadence) : RangeOutcome R :=
  rangeLoop GetTaxData stop cadence fuel start [] []

end Range

/-- The gross values `start, start+1000, ...` not above `stop`. -/
def samples (start stop : Int) : List Int :=
  if start ≤ stop
  then (List.range (((stop - start) / 1000).toNat + 1)).map
    (fun (i : Nat) => start + 1000 * (i : Int))
  else []

/-! ## Writer -/

/-- How a call ends: it returns to its caller, or the process exits. -/
inductive Exit where
  | returned
  | exited (code : Nat)
  deriving DecidableEq, Repr

/-- The outside world of `WriteTaxResults`. -/
structure WriterEnv (F : Type) where
  /-- The error of `os.Create("steuer.jsonl")`, `none` when the file is created. -/
  Create : Option String
  /-- The result of `json.Marshal(m)`. -/
  Marshal : TaxResult F → Except String String
  /-- The result of the `k`-th `file.Write(line)`: `none` when the whole line is written,
  else the number of characters written and the error. -/
  Write : Nat → String → Option (Nat × String)

/-- What a run of `WriteTaxResults` leaves behind. -/
structure WriterOutcome where
  /-- Whether the function returned or the process exited. -/
  exit : Exit
  /-- The messages logged, in order. -/
  log : List String
  /-- The contents written to the created file, `none` when it was not created. -/
  file : Option String
  deriving DecidableEq, Repr

/-- The text made of the given lines, each followed by a newline. -/
def concatLines : List String → String
  | [] => ""
  | l :: ls => l ++ "\n" ++ concatLines ls

section Writer

variable {F : Type} (env : WriterEnv F)

/-- The loop of lines 170-182: `file` is what has been written, `k` the number of
writes made. -/
def writeLoop : List (TaxResult F) → String → Nat → WriterOutcome
  | [], file, _ => { exit := .returned, log := [], file := some file }
  | m :: rest, file, k =>
    match env.Marshal m with
    | .error err =>
      { exit := .returned, log := ["Error encoding JSON: " ++ err], file := some file }
    | .ok line =>
      match env.Write k (line ++ "\n") with
      | some (n, err) =>
        { exit := .returned, log := ["Error writing to file: " ++ err],
          file := some (file ++ (line ++ "\n").take n) }
      | none => writeLoop rest (file ++ (line ++ "\n")) (k + 1)

/-- The function `WriteTaxResults` (lines 163-184). -/
def WriteTaxResults (results : List (TaxResult F)) : WriterOutcome :=
  match env.Create with
  | some err => { exit := .exited 1, log := ["Error creating file: " ++ err], file := none }
  | none => writeLoop env results "" 0

end Writer

/-- A record with the given gross and net pay and no deductions. -/
def sampleRecord (brutto netto : ℚ) : TaxResult ℚ :=
  { Brutto := brutto
    GeldwerterVorteil := 0
    «Solidaritätszuschlag» := 0
    Kirchensteuer := 0
    Lohnsteuer := 0
    Steuern := 0
    Rentenversicherung := 0
    Arbeitslosenversicherung := 0
    Krankenversicherung := 0
    Pflegeversicherung := 0
    SozialAbgaben := 0
    Netto := netto }

/-- A world in which the output file cannot be created. -/
def deniedEnv : WriterEnv ℚ :=
  { Create := some "open steuer.jsonl: permission denied"
    Marshal := fun _ => .ok "\x7b\x7d"
    Write := fun _ _ => none }

/-- A world in which the serialization of a record with negative net pay fails. -/
def marshalFailsEnv : WriterEnv ℚ :=
  { Create := none
    Marshal := fun m => if m.Netto < 0 then .error "json: unsupported value" else .ok "\x7b\x7d"
    Write := fun _ _ => none }

/-- A world in which the second write fails after one character. -/
def writeFailsEnv : WriterEnv ℚ :=
  { Create := none
    Marshal := fun _ => .ok "\x7b\x7d"
    Write := fun k _ => if k = 1 then some (1, "write steuer.jsonl: no space left on device")
      else none }

/-! ## Fetcher -/

/-- The call `fmt.Sprintf("%d", gross)`: the decimal rendering of an integer. -/
def Sprintf_d (n : Int) : String :=
  if n < 0 then "-" ++ Nat.repr n.natAbs else Nat.repr n.natAbs

/-- The address the form is posted to (line 57). -/
def endpoint : String := "https://www.brutto-netto-rechner.info/"

/-- The `url.Values` literal of lines 57-76, as the list of its keys with their values:
the form payload `GetTaxData(gross, cadence)` submits. The cadence does not occur in it. -/
def payload (gross : Int) (_cadence : Cadence) : List (String × List String) :=
  [ ("f_bruttolohn", [Sprintf_d gross]),
    ("f_abrechnungszeitraum", ["jahr"]),
    ("f_geld_werter_vorteil", ["0"]),
    ("f_abrechnungsjahr", ["2024"]),
    ("f_steuerfreibetrag", ["0"]),
    ("f_steuerklasse", ["1"]),
    ("f_kirche", ["nein"]),
    ("f_bundesland", ["bayern"]),
    ("f_alter", ["27"]),
    ("f_kinder", ["nein"]),
    ("f_kinderfreibetrag", ["0"]),
    ("f_krankenversicherung", ["pflichtversichert"]),
    ("f_private_k", [""]),
    ("f_arbeitgeberzuschuss_pkv", ["ja"]),
    ("f_KVZ", ["1.2"]),
    ("f_rentenversicherung", ["pflichtversichert"]),
    ("f_arbeitslosenversicherung", ["pflichtversichert"]),
    ("ok", ["1"]) ]

/-- The fixed fields of the payload: all but `f_bruttolohn`. -/
def fixedFields : List (String × List String) :=
  [ ("f_abrechnungszeitraum", ["jahr"]),
    ("f_geld_werter_vorteil", ["0"]),
    ("f_abrechnungsjahr", ["2024"]),
    ("f_steuerfreibetrag", ["0"]),
    ("f_steuerklasse", ["1"]),
    ("f_kirche", ["nein"]),
    ("f_bundesland", ["bayern"]),
    ("f_alter", ["27"]),
    ("f_kinder", ["nein"]),
    ("f_kinderfreibetrag", ["0"]),
    ("f_krankenversicherung", ["pflichtversichert"]),
    ("f_private_k", [""]),
    ("f_arbeitgeberzuschuss_pkv", ["ja"]),
    ("f_KVZ", ["1.2"]),
    ("f_rentenversicherung", ["pflichtversichert"]),
    ("f_arbeitslosenversicherung", ["pflichtversichert"]),
    ("ok", ["1"]) ]

/-- The values a payload holds under a key, `nil` when the key is absent. -/
def field (values : List (String × List String)) (key : String) : Option (List String) :=
  values.lookup key

/-- The outside world of `GetTaxData`. -/
structure FetchEnv where
  /-- The result of the `k`-th `http.PostForm(url, values)`: the response body, or the
  error. -/
  PostForm : Nat → String → List (String × List String) → Except String String
  /-- The result of `html.Parse(res.Body)`: the document tree, or the error. -/
  Parse : String → Except String Node

section Fetcher

variable {F : Type} (ParseFloat : GoString → Option F) (world : FetchEnv)

/-- The function `GetTaxData` (lines 55-87), called after `k` earlier requests. -/
def GetTaxData (k : Nat) (gross : Int) (cadence : Cadence) : Except Failure (TaxResult F) :=
  match world.PostForm k endpoint (payload gross cadence) with
  | .error err => .error (.network err)
  | .ok body =>
    match world.Parse body with
    | .error err => .error (.htmlParse err)
    | .ok doc => GetTableData ParseFloat doc cadence

end Fetcher

/-! ## The whole run -/

/-- How a run of `main` stands: `calls` are the gross values fetched so far. -/
inductive MainOutcome where
  /-- The range was fetched and `WriteTaxResults` was invoked, with this outcome. -/
  | written (calls : List Int) (writer : WriterOutcome)
  /-- The process ended inside `GetTaxDataRange`; `WriteTaxResults` was not invoked. -/
  | aborted (calls : List Int) (e : Failure)
  /-- The loop of `GetTaxDataRange` is still running. -/
  | running (calls : List Int)
  deriving DecidableEq, Repr

/-- Whether `WriteTaxResults` was invoked in the run. -/
def MainOutcome.writerInvoked : MainOutcome → Bool
  | .written _ _ => true
  | .aborted _ _ => false
  | .running _ => false

/-- The contents the run wrote to the output file, `none` when the file was neither
created nor truncated. -/
def MainOutcome.file : MainOutcome → Option String
  | .written _ writer => writer.file
  | .aborted _ _ => none
  | .running _ => none

/-- The gross values fetched in the run. -/
def MainOutcome.calls : MainOutcome → List Int
  | .written calls _ => calls
  | .aborted calls _ => calls
  | .running calls => calls

section Main

variable {F : Type} (ParseFloat : GoString → Option F) (world : FetchEnv) (env : WriterEnv F)

/-- The body of `main` (lines 25-26) for a range and a cadence: the result of
`GetTaxDataRange` is handed to `WriteTaxResults`. -/
def run (fuel : Nat) (start stop : Int) (cadence : Cadence) : MainOutcome :=
  match GetTaxDataRange (GetTaxData ParseFloat world) fuel start stop cadence with
  | .returned calls results => .written calls (WriteTaxResults env results)
  | .fatal calls e => .aborted calls e
  | .running calls _ => .running calls

/-- The function `main` (lines 24-27). -/
def main (fuel : Nat) : MainOutcome :=
  run ParseFloat world env fuel 0 100000 Cadence.Yearly

end Main

/-! ## The text of a final cell, as the specification words it -/

/-- A child named `b` that has a child of its own. -/
def boldWithChild (c : Node) : Bool :=
  c.Data == utf8 "b" && c.FirstChild.isSome

/-- The last direct child named `b` that has a child, if there is one. -/
def lastBold (cs : List Node) : Option Node :=
  (cs.filter boldWithChild).getLast?

/-- The data of the first child of a node, the empty string when it has no child. -/
def firstChildData (c : Node) : GoString :=
  match c.FirstChild with
  | some t => t.Data
  | none => utf8 ""

/-- The text reached by unwrapping one level of bold markup: the data of the first child
of the last direct child named `b` that has a child, the empty string when there is no
such child. -/
def unwrappedText (n : Node) : GoString :=
  match lastBold n.children with
  | some b => firstChildData b
  | none => utf8 ""

/-- A final cell with text placed directly in it and no bold child:
`<td class="right_column orange big">35.420,50 €</td>`. -/
def plainFinalCell : Node :=
  element "td" [mkAttr "class" "right_column orange big"] [textNode "35.420,50 €"]

/-- A final cell with direct text and two bold children:
`<td class="right_column orange big">9,00 €<b>1,00 €</b><b>2,00 €</b></td>`. -/
def twoBoldCell : Node :=
  element "td" [mkAttr "class" "right_column orange big"]
    [textNode "9,00 €", element "b" [] [textNode "1,00 €"], element "b" [] [textNode "2,00 €"]]

/-- The record of the stub document. -/
def stubRecord : TaxResult ℚ :=
  { Brutto := 50000
    GeldwerterVorteil := 0
    «Solidaritätszuschlag» := 12.34
    Kirchensteuer := 56.78
    Lohnsteuer := 7000
    Steuern := 7069.12
    Rentenversicherung := 4650
    Arbeitslosenversicherung := 650
    Krankenversicherung := 4000
    Pflegeversicherung := 45500
    SozialAbgaben := 4400
    Netto := 35420.5 }

/-- A world in which every request is answered with the yearly stub document, except the
third, which fails. -/
def thirdRequestFails : FetchEnv :=
  { PostForm := fun k _ _ => if k = 2 then .error "connection refused" else .ok "stub"
    Parse := fun _ => .ok yearlyStub }

/-- A world in which every request is answered with the yearly stub document. -/
def stubWorld : FetchEnv :=
  { PostForm := fun _ _ _ => .ok "stub"
    Parse := fun _ => .ok yearlyStub }

/-! ## JSON lines -/

/-- The JSON keys given by the struct tags of lines 30-41, in declaration order. -/
def jsonKeys : List String :=
  [ "brutto", "geldwertervorteil", "solidaritätszuschlag", "kirchensteuer", "lohnsteuer",
    "steuern", "rentenversicherung", "arbeitslosenversicherung", "krankenversicherung",
    "pflegeversicherung", "sozialabgaben", "netto" ]

/-- The field values of a record, in declaration order. -/
def TaxResult.values {F : Type} (m : TaxResult F) : List F :=
  [ m.Brutto, m.GeldwerterVorteil, m.«Solidaritätszuschlag», m.Kirchensteuer, m.Lohnsteuer,
    m.Steuern, m.Rentenversicherung, m.Arbeitslosenversicherung, m.Krankenversicherung,
    m.Pflegeversicherung, m.SozialAbgaben, m.Netto ]

/-- The JSON member with the given key and encoded value: the quoted key, a colon, the
value. -/
def jsonMember (key value : String) : String :=
  "\x22" ++ key ++ "\x22:" ++ value

/-- The given texts separated by commas. -/
def joinComma : List String → String
  | [] => ""
  | [a] => a
  | a :: b :: rest => a ++ "," ++ joinComma (b :: rest)

/-- The compact JSON object with the given members, in the given order. -/
def objectText (members : List (String × String)) : String :=
  "\x7b" ++ joinComma (members.map (fun p => jsonMember p.1 p.2)) ++ "\x7d"

/-- The encodings of a sequence of values, or the first encoding error. -/
def encodeAll {F : Type} (encodeFloat : F → Except String String) :
    List F → Except String (List String)
  | [] => .ok []
  | v :: vs =>
    match encodeFloat v with
    | .error err => .error err
    | .ok s =>
      match encodeAll encodeFloat vs with
      | .error err => .error err
      | .ok ss => .ok (s :: ss)

/-- The call `json.Marshal(m)` on a record: the compact object whose members are the
fields in declaration order under their tagged keys. `encodeFloat` is the encoding of a
`float64`, which fails for values JSON cannot represent. -/
def Marshal {F : Type} (encodeFloat : F → Except String String) (m : TaxResult F) :
    Except String String :=
  match encodeAll encodeFloat m.values with
  | .error err => .error err
  | .ok ss => .ok (objectText (jsonKeys.zip ss))

/-- The text `json.Marshal` writes for the `float64` nearest to a decimal with few digits:
that decimal in its shortest form. Rationals without a finite decimal expansion of at most
twenty places are outside this fragment; the fragment is used for concrete records only. -/
def encodeDecimal (q : ℚ) : Except String String :=
  let n := q.num.natAbs
  let whole := n / q.den
  let rest := n % q.den
  let sign := if q.num < 0 then "-" else ""
  if rest = 0 then .ok (sign ++ Nat.repr whole)
  else
    match (List.range 21).find? (fun k => decide (rest * 10 ^ k % q.den = 0)) with
    | none => .error "json: unsupported value"
    | some k =>
      let digits := Nat.repr (rest * 10 ^ k / q.den)
      .ok (sign ++ Nat.repr whole ++ "." ++ String.mk (List.replicate (k - digits.length) '0')
        ++ digits)

/-- A world in which records are serialized as JSON and every write succeeds. -/
def jsonEnv : WriterEnv ℚ :=
  { Create := none
    Marshal := Marshal encodeDecimal
    Write := fun _ _ => none }

/-- A world in which records are serialized as JSON and the second write fails after five
characters. -/
def partialWriteEnv : WriterEnv ℚ :=
  { Create := none
    Marshal := Marshal encodeDecimal
    Write := fun k _ => if k = 1 then some (5, "write steuer.jsonl: no space left on device")
      else none }

/-! ## Theorems -/

/-! ### UTF-8 -/

/-- The encoder agrees with the UTF-8 encoding of the standard library on the texts of the
source and on a text with characters of every length. -/
theorem utf8_eq_toUTF8 :
    utf8 "\u00a0" = ("\u00a0".toUTF8).data.toList ∧ utf8 "€" = ("€".toUTF8).data.toList
      ∧ utf8 " .," = (" .,".toUTF8).data.toList
      ∧ utf8 "aä€😀" = ("aä€😀".toUTF8).data.toList
      ∧ utf8 "\u00a0" = [0xC2, 0xA0] ∧ utf8 " " = [0x20] ∧ utf8 "€" = [0xE2, 0x82, 0xAC]
      ∧ utf8 "." = [0x2E] ∧ utf8 "," = [0x2C] ∧ utf8 "" = [] := by
  decide

/-- The code point of a character is below `0x110000`. -/
theorem Char_toNat_lt (c : Char) : c.toNat < 0x110000 := by
  have h := c.valid
  simp only [UInt32.isValidChar, Nat.isValidChar] at h
  show c.val.toNat < 0x110000
  omega

/-- The numbers of an encoding are bytes. -/
theorem runeBytes_lt (v : Nat) (hv : v < 0x110000) : ∀ b ∈ runeBytes v, b < 256 := by
  intro b hb
  unfold runeBytes at hb
  split_ifs at hb <;> simp at hb <;> omega

/-- An encoding that starts a sequence of encodings is the first of them: no encoding is
the start of another one. -/
theorem runeBytes_isPrefix_eq (x c : Nat) (hx : x < 0x110000) (hc : c < 0x110000)
    (r : List Nat) (h : runeBytes x <+: runeBytes c ++ r) : x = c := by
  unfold runeBytes at h
  split_ifs at h <;> simp [List.cons_prefix_cons] at h <;> omega

/-- An encoding starts with a byte that is no continuation byte, followed by continuation
bytes only. -/
theorem runeBytes_shape (v : Nat) (hv : v < 0x110000) :
    ∃ h t, runeBytes v = h :: t ∧ ¬ (0x80 ≤ h ∧ h < 0xC0) ∧ ∀ b ∈ t, 0x80 ≤ b ∧ b < 0xC0 := by
  unfold runeBytes
  split_ifs
  · exact ⟨_, _, rfl, by omega, by simp⟩
  · exact ⟨_, _, rfl, by omega, by simp; omega⟩
  · exact ⟨_, _, rfl, by omega, by simp; omega⟩
  · exact ⟨_, _, rfl, by omega, by simp; omega⟩

/-- The numbers of the bytes of the encoding of a character. -/
theorem toNat_encodeRune (c : Char) : (encodeRune c).map UInt8.toNat = runeBytes c.toNat := by
  unfold encodeRune
  rw [List.map_map]
  conv_rhs => rw [← List.map_id (runeBytes c.toNat)]
  apply List.map_congr_left
  intro b hb
  exact UInt8.toNat_ofNat_of_lt (runeBytes_lt _ (Char_toNat_lt c) b hb)

/-- The encoding of a character that starts the encoding of a text is the encoding of the
first character of the text. -/
theorem encodeRune_isPrefix_eq (x c : Char) (r : GoString)
    (h : encodeRune x <+: encodeRune c ++ r) : x = c := by
  have h2 := h.map UInt8.toNat
  rw [List.map_append, toNat_encodeRune, toNat_encodeRune] at h2
  have := runeBytes_isPrefix_eq _ _ (Char_toNat_lt x) (Char_toNat_lt c) _ h2
  exact Char.ext (UInt32.ext (by simpa [Char.toNat] using this))

/-- The encoding of a character: a byte that is no continuation byte, then continuation
bytes. -/
theorem encodeRune_shape (c : Char) :
    ∃ h t, encodeRune c = h :: t ∧ isContinuation h = false
      ∧ ∀ b ∈ t, isContinuation b = true := by
  obtain ⟨h, t, e, h1, h2⟩ := runeBytes_shape c.toNat (Char_toNat_lt c)
  have hlt := runeBytes_lt c.toNat (Char_toNat_lt c)
  rw [e] at hlt
  refine ⟨UInt8.ofNat h, t.map UInt8.ofNat, by simp [encodeRune, e], ?_, ?_⟩
  · have := UInt8.toNat_ofNat_of_lt (hlt h (List.mem_cons_self _ _))
    simp only [isContinuation, this, decide_eq_false_iff_not]
    exact h1
  · intro b hb
    obtain ⟨n, hn, rfl⟩ := List.mem_map.mp hb
    have := UInt8.toNat_ofNat_of_lt (hlt n (List.mem_cons_of_mem _ hn))
    simp only [isContinuation, this, decide_eq_true_eq]
    exact h2 n hn

/-- Two lists of characters with the same encoding are equal. -/
theorem flatMap_encodeRune_injective (l1 l2 : List Char)
    (h : l1.flatMap encodeRune = l2.flatMap encodeRune) : l1 = l2 := by
  induction l1 generalizing l2 with
  | nil =>
    cases l2 with
    | nil => rfl
    | cons c l2 =>
      obtain ⟨b, t, e, _⟩ := encodeRune_shape c
      simp [e] at h
  | cons c l1 ih =>
    cases l2 with
    | nil =>
      obtain ⟨b, t, e, _⟩ := encodeRune_shape c
      simp [e] at h
    | cons d l2 =>
      simp only [List.flatMap_cons] at h
      have hcd : c = d :=
        encodeRune_isPrefix_eq c d _ (by rw [← h]; exact List.prefix_append _ _)
      subst hcd
      rw [ih l2 (List.append_cancel_left h)]

/-- Two texts with the same encoding are equal. -/
theorem utf8_injective (s t : String) (h : utf8 s = utf8 t) : s = t :=
  String.ext (flatMap_encodeRune_injective s.data t.data h)

/-- The encoding of a character occurs in the encoding of a text only where the text has
this character. -/
theorem mem_of_encodeRune_isInfix (x : Char) (l : List Char)
    (h : encodeRune x <:+: l.flatMap encodeRune) : x ∈ l := by
  induction l with
  | nil =>
    obtain ⟨b, t, e, _⟩ := encodeRune_shape x
    rw [e] at h
    simp at h
  | cons c l ih =>
    obtain ⟨b, t, e, h1, h2⟩ := encodeRune_shape c
    obtain ⟨bx, tx, ex, hx1, hx2⟩ := encodeRune_shape x
    simp only [List.flatMap_cons] at h
    have key : ∀ (t : GoString), (∀ b ∈ t, isContinuation b = true) →
        encodeRune x <:+: t ++ l.flatMap encodeRune → encodeRune x <:+: l.flatMap encodeRune := by
      intro t
      induction t with
      | nil => intro _ h; exact h
      | cons a t iht =>
        intro ht h
        rw [List.cons_append, List.infix_cons_iff] at h
        rcases h with h | h
        · rw [ex, List.cons_prefix_cons] at h
          have := ht a (List.mem_cons_self _ _)
          rw [← h.1, hx1] at this
          cases this
        · exact iht (fun b hb => ht b (List.mem_cons_of_mem _ hb)) h
    rw [e, List.cons_append, List.infix_cons_iff] at h
    rcases h with h | h
    · rw [← List.cons_append, ← e] at h
      rw [encodeRune_isPrefix_eq x c _ h]
      exact List.mem_cons_self _ _
    · exact List.mem_cons_of_mem _ (ih (key t h2 h))

/-! ### Replacement -/

/-- The bytes still to be dropped are dropped. -/
theorem replaceFrom_skip (p new : GoString) (a r : GoString) :
    replaceFrom p new a.length (a ++ r) = replaceFrom p new 0 r := by
  induction a with
  | nil => rfl
  | cons b a ih => simpa [replaceFrom] using ih

/-- A pattern that starts with a byte that is no continuation byte does not occur at a
continuation byte: the scan copies continuation bytes. -/
theorem replaceFrom_continuation (h : UInt8) (p new : GoString)
    (hh : isContinuation h = false) (t r : GoString) (ht : ∀ b ∈ t, isContinuation b = true) :
    replaceFrom (h :: p) new 0 (t ++ r) = t ++ replaceFrom (h :: p) new 0 r := by
  induction t with
  | nil => rfl
  | cons b t ih =>
    have hb := ht b (List.mem_cons_self _ _)
    have hne : ¬ h = b := by
      intro e
      rw [e, hb] at hh
      cases hh
    have := ih (fun c hc => ht c (List.mem_cons_of_mem _ hc))
    simp [replaceFrom, List.isPrefixOf, hne, this]

/-- On the encoding of a text, replacing the encoding of a character acts character by
character. -/
theorem replaceFrom_encodeRune (x : Char) (new : GoString) (l : List Char) :
    replaceFrom (encodeRune x) new 0 (l.flatMap encodeRune)
      = l.flatMap (fun c => if c = x then new else encodeRune c) := by
  induction l with
  | nil => simp [replaceFrom]
  | cons c l ih =>
    rw [List.flatMap_cons, List.flatMap_cons]
    by_cases hcx : c = x
    · subst hcx
      obtain ⟨h, t, e, h1, h2⟩ := encodeRune_shape c
      rw [if_pos rfl, ← ih, e]
      have hp : (h :: t).isPrefixOf (h :: (t ++ l.flatMap encodeRune)) = true := by
        rw [List.isPrefixOf_iff_prefix]
        exact List.prefix_append (h :: t) _
      rw [List.cons_append, replaceFrom, if_pos hp]
      simp only [List.length_cons, Nat.add_sub_cancel]
      rw [replaceFrom_skip]
    · obtain ⟨h, t, e, h1, h2⟩ := encodeRune_shape c
      obtain ⟨hx, tx, ex, hx1, hx2⟩ := encodeRune_shape x
      have hp : ¬ (encodeRune x).isPrefixOf (encodeRune c ++ l.flatMap encodeRune) = true := by
        rw [List.isPrefixOf_iff_prefix]
        intro hpre
        exact hcx (encodeRune_isPrefix_eq x c _ hpre).symm
      rw [if_neg hcx, ← ih]
      rw [e] at hp ⊢
      rw [List.cons_append] at hp ⊢
      rw [replaceFrom, if_neg hp]
      rw [ex, replaceFrom_continuation hx tx new hx1 t _ h2]
      rfl

/-- On the encoding of a text, removing the encoding of a character filters the character
out. -/
theorem ReplaceAll_remove (l : List Char) (x : Char) (p q : GoString) (hp : p = encodeRune x)
    (hq : q = []) (h : p ≠ []) :
    ReplaceAll (l.flatMap encodeRune) p q h
      = (l.filter (fun c => !(c == x))).flatMap encodeRune := by
  subst hp hq
  unfold ReplaceAll
  rw [if_neg h, replaceFrom_encodeRune]
  induction l with
  | nil => rfl
  | cons c cs ih =>
    by_cases hc : c = x <;> simp [hc, List.filter_cons, ih]

/-- On the encoding of a text, replacing the encoding of a character by that of another
one maps the characters. -/
theorem ReplaceAll_map (l : List Char) (x y : Char) (hxy : x ≠ y) (p q : GoString)
    (hp : p = encodeRune x) (hq : q = encodeRune y) (h : p ≠ []) :
    ReplaceAll (l.flatMap encodeRune) p q h
      = (l.map (fun c => if c = x then y else c)).flatMap encodeRune := by
  subst hp hq
  have hne : ¬ encodeRune x = encodeRune y := by
    intro e
    apply hxy
    apply encodeRune_isPrefix_eq x y []
    rw [e]
    exact List.prefix_append _ _
  unfold ReplaceAll
  rw [if_neg hne, replaceFrom_encodeRune]
  induction l with
  | nil => rfl
  | cons c cs ih =>
    by_cases hc : c = x <;> simp [hc, ih]

/-- On valid UTF-8 the five replacements of lines 120-124 compute the specified
normalization of the text. -/
theorem normalize_utf8 (s : String) : normalize (utf8 s) = utf8 (normalizeSpec s) := by
  unfold normalize normalizeSpec
  simp only []
  rw [show utf8 s = s.data.flatMap encodeRune from rfl]
  rw [ReplaceAll_remove s.data '\u00a0' _ _ (by decide) (by decide),
    ReplaceAll_remove _ ' ' _ _ (by decide) (by decide),
    ReplaceAll_remove _ '€' _ _ (by decide) (by decide),
    ReplaceAll_remove _ '.' _ _ (by decide) (by decide),
    ReplaceAll_map _ ',' '.' (by decide) _ _ (by decide) (by decide)]
  show _ = ((s.data.filter (fun c => !isStripped c)).map commaToPeriod).flatMap encodeRune
  simp only [List.filter_filter]
  congr 2
  congr 1
  funext c
  simp only [isStripped, Bool.not_or, Bool.and_comm, Bool.and_left_comm]


/-! ### Replacement on arbitrary bytes -/

/-- Replacing a one-byte pattern acts byte by byte. -/
theorem replaceFrom_single (x : UInt8) (new s : GoString) :
    replaceFrom [x] new 0 s = s.flatMap (fun c => if c = x then new else [c]) := by
  induction s with
  | nil => simp [replaceFrom]
  | cons c cs ih =>
    by_cases h : c = x
    · subst h
      simp [replaceFrom, List.isPrefixOf, ih]
    · have h' : ¬ x = c := fun e => h e.symm
      simp [replaceFrom, List.isPrefixOf, ih, h, h']

/-- A replacement by something else than the pattern is the scan. -/
theorem ReplaceAll_of_ne (s p q : GoString) (h : p ≠ []) (hne : p ≠ q) :
    ReplaceAll s p q h = replaceFrom p q 0 s := by
  unfold ReplaceAll
  rw [if_neg hne]

/-- Removing a byte filters it out. -/
theorem ReplaceAll_remove_byte (s : GoString) (x : UInt8) (p q : GoString) (hp : p = [x])
    (hq : q = []) (h : p ≠ []) :
    ReplaceAll s p q h = s.filter (fun c => !(c == x)) := by
  subst hp hq
  unfold ReplaceAll
  rw [if_neg h, replaceFrom_single]
  induction s with
  | nil => rfl
  | cons c cs ih =>
    by_cases hc : c = x <;> simp [hc, List.filter_cons, ih]

/-- Replacing a byte by another one is a map. -/
theorem ReplaceAll_map_byte (s : GoString) (x y : UInt8) (hxy : x ≠ y) (p q : GoString)
    (hp : p = [x]) (hq : q = [y]) (h : p ≠ []) :
    ReplaceAll s p q h = s.map (fun c => if c = x then y else c) := by
  subst hp hq
  have hne : ¬ [x] = [y] := by simpa using hxy
  unfold ReplaceAll
  rw [if_neg hne, replaceFrom_single]
  induction s with
  | nil => rfl
  | cons c cs ih =>
    by_cases hc : c = x <;> simp [hc, ih]

/-- Removing a pattern adds no byte. -/
theorem mem_replaceFrom (p : GoString) (b : UInt8) :
    ∀ (s : GoString) (k : Nat), b ∈ replaceFrom p [] k s → b ∈ s := by
  intro s
  induction s with
  | nil => intro k h; simp [replaceFrom] at h
  | cons c cs ih =>
    intro k h
    cases k with
    | succ k =>
      rw [replaceFrom] at h
      exact List.mem_cons_of_mem _ (ih k h)
    | zero =>
      rw [replaceFrom] at h
      split at h
      · rw [List.nil_append] at h
        exact List.mem_cons_of_mem _ (ih _ h)
      · rcases List.mem_cons.mp h with h | h
        · rw [h]; exact List.mem_cons_self _ _
        · exact List.mem_cons_of_mem _ (ih _ h)

/-- Removing a non-empty pattern keeps the number of occurrences of a byte that is not in
the pattern, also while the rest of an occurrence of the pattern is being dropped. -/
theorem count_replaceFrom (p : GoString) (b : UInt8) (hp : p ≠ []) (hb : b ∉ p) :
    ∀ (s : GoString) (k : Nat), (∀ x ∈ s.take k, x ≠ b) →
      (replaceFrom p [] k s).count b = s.count b := by
  intro s
  induction s with
  | nil => intro k _; simp [replaceFrom]
  | cons c cs ih =>
    intro k hk
    cases k with
    | succ k =>
      have hc : c ≠ b := hk c (by simp)
      rw [replaceFrom, List.count_cons_of_ne hc.symm]
      exact ih k (fun x hx => hk x (by simp [hx]))
    | zero =>
      rw [replaceFrom]
      split
      · rename_i hpre
        rw [List.isPrefixOf_iff_prefix] at hpre
        obtain ⟨a, p', rfl⟩ := List.exists_cons_of_ne_nil hp
        rw [List.cons_prefix_cons] at hpre
        obtain ⟨rfl, hpre⟩ := hpre
        have hc : a ≠ b := fun e => hb (by rw [e]; exact List.mem_cons_self _ _)
        rw [List.nil_append, List.count_cons_of_ne hc.symm]
        apply ih
        intro x hx
        simp only [List.length_cons, Nat.add_sub_cancel] at hx
        have hx' : x ∈ p' := by
          rw [List.prefix_iff_eq_take] at hpre
          rw [hpre]
          exact hx
        exact fun e => hb (by rw [← e]; exact List.mem_cons_of_mem _ hx')
      · by_cases hc : c = b
        · subst hc
          rw [List.count_cons_self, List.count_cons_self, ih 0 (by simp)]
        · rw [List.count_cons_of_ne (Ne.symm hc), List.count_cons_of_ne (Ne.symm hc),
            ih 0 (by simp)]

/-- The five replacements on arbitrary bytes: the two one-byte removals are filters, the
last replacement is a map. -/
theorem normalize_eq (s : GoString) :
    normalize s
      = (((replaceFrom (utf8 "€") [] 0
            ((replaceFrom (utf8 "\u00a0") [] 0 s).filter (fun c => !(c == 0x20)))).filter
          (fun c => !(c == 0x2E))).map (fun c => if c = 0x2C then 0x2E else c)) := by
  unfold normalize
  simp only []
  rw [ReplaceAll_map_byte _ 0x2C 0x2E (by decide) _ _ (by decide) (by decide),
    ReplaceAll_remove_byte _ 0x2E _ _ (by decide) (by decide),
    ReplaceAll_of_ne _ (utf8 "€") _ _ (by decide),
    ReplaceAll_remove_byte _ 0x20 _ _ (by decide) (by decide),
    ReplaceAll_of_ne _ _ _ _ (by decide)]
  rfl

/-- The normalized string of arbitrary bytes has no space byte and no comma byte, and as
many period bytes as the input has comma bytes. -/
theorem normalize_bytes (s : GoString) :
    (0x20 : UInt8) ∉ normalize s ∧ (0x2C : UInt8) ∉ normalize s
      ∧ (normalize s).count 0x2E = s.count 0x2C := by
  rw [normalize_eq]
  refine ⟨?_, ?_, ?_⟩
  · intro h
    obtain ⟨d, hd, hf⟩ := List.mem_map.mp h
    have hd20 : d = 0x20 := by
      by_cases hc : d = 0x2C
      · rw [if_pos hc] at hf
        exact absurd hf (by decide)
      · rw [if_neg hc] at hf
        exact hf
    subst hd20
    have h1 := (List.mem_filter.mp hd).1
    have h2 := mem_replaceFrom _ _ _ _ h1
    have h3 := (List.mem_filter.mp h2).2
    revert h3
    decide
  · intro h
    obtain ⟨d, _, hf⟩ := List.mem_map.mp h
    by_cases hc : d = 0x2C
    · rw [if_pos hc] at hf
      revert hf
      decide
    · rw [if_neg hc] at hf
      exact hc hf
  · have hmap : ∀ l : GoString, (∀ d ∈ l, d ≠ 0x2E) →
        (l.map (fun c => if c = (0x2C : UInt8) then (0x2E : UInt8) else c)).count 0x2E
          = l.count 0x2C := by
      intro l
      induction l with
      | nil => intro _; rfl
      | cons d l ih =>
        intro hl
        have ih' := ih (fun x hx => hl x (List.mem_cons_of_mem _ hx))
        have hd := hl d (List.mem_cons_self _ _)
        by_cases hc : d = 0x2C
        · subst hc
          simp only [List.map_cons, if_true]
          rw [List.count_cons_self, List.count_cons_self, ih']
        · simp only [List.map_cons, if_neg hc]
          rw [List.count_cons_of_ne hd.symm, List.count_cons_of_ne (Ne.symm hc), ih']
    rw [hmap _ (fun d hd => by
      have := (List.mem_filter.mp hd).2
      intro e
      subst e
      revert this
      decide)]
    rw [List.count_filter (by decide),
      count_replaceFrom _ _ (by decide) (by decide) _ 0 (by simp),
      List.count_filter (by decide),
      count_replaceFrom _ _ (by decide) (by decide) _ 0 (by simp)]

/-! ### Normalization of a text, as the specification words it -/

/-- After the comma replacement, a kept character is stripped exactly when it was a comma. -/
theorem isStripped_commaToPeriod (c : Char) (h : isStripped c = false) :
    isStripped (commaToPeriod c) = decide (c = ',') := by
  unfold commaToPeriod
  by_cases hc : c = ','
  · subst hc; decide
  · simp [hc, h]

/-- Normalizing a normalized list of characters removes what came from commas. -/
theorem renormalize_data (l : List Char) (h : ∀ c ∈ l, isStripped c = false) :
    ((l.map commaToPeriod).filter (fun c => !isStripped c)).map commaToPeriod
      = l.filter (fun c => !decide (c = ',')) := by
  induction l with
  | nil => rfl
  | cons c cs ih =>
    have hc := h c (List.mem_cons_self _ _)
    have ih' := ih (fun d hd => h d (List.mem_cons_of_mem _ hd))
    by_cases hcomma : c = ','
    · subst hcomma
      simp only [List.map_cons, List.filter_cons, isStripped_commaToPeriod _ hc]
      simpa using ih'
    · simp only [List.map_cons, List.filter_cons, isStripped_commaToPeriod _ hc, hcomma]
      simp [ih', commaToPeriod, hcomma]

/-- The characters of a twice normalized text. -/
theorem normalizeSpec_normalizeSpec_data (s : String) :
    (normalizeSpec (normalizeSpec s)).data
      = (s.data.filter (fun c => !isStripped c)).filter (fun c => !decide (c = ',')) :=
  renormalize_data _ (fun c hc => by simpa using (List.mem_filter.mp hc).2)

/-- Normalizing a text twice changes nothing exactly when the text has no comma. -/
theorem normalizeSpec_normalizeSpec_iff (s : String) :
    normalizeSpec (normalizeSpec s) = normalizeSpec s ↔ ',' ∉ s.data := by
  have hdata : (normalizeSpec s).data
      = (s.data.filter (fun c => !isStripped c)).map commaToPeriod := rfl
  constructor
  · intro h hmem
    have hd := congrArg String.data h
    rw [normalizeSpec_normalizeSpec_data, hdata] at hd
    have hlen := congrArg List.length hd
    rw [List.length_map] at hlen
    have hall := (List.filter_length_eq_length).mp hlen
    have hin : ',' ∈ s.data.filter (fun c => !isStripped c) :=
      List.mem_filter.mpr ⟨hmem, by decide⟩
    have := hall ',' hin
    simp at this
  · intro h
    apply String.ext
    rw [normalizeSpec_normalizeSpec_data, hdata]
    have hnot : ∀ c ∈ s.data.filter (fun c => !isStripped c), c ≠ ',' := by
      intro c hc e
      subst e
      exact h (List.mem_filter.mp hc).1
    rw [List.filter_eq_self.mpr (fun c hc => by simpa using hnot c hc)]
    conv_lhs => rw [← List.map_id (s.data.filter (fun c => !isStripped c))]
    apply List.map_congr_left
    intro c hc
    simp [commaToPeriod, hnot c hc]

/-- A character of a normalized text comes from a kept character of the input. -/
theorem mem_normalizeSpec_data (s : String) (c : Char) (h : c ∈ (normalizeSpec s).data) :
    ∃ d ∈ s.data, isStripped d = false ∧ commaToPeriod d = c := by
  obtain ⟨d, hd, rfl⟩ := List.mem_map.mp h
  obtain ⟨hmem, hkeep⟩ := List.mem_filter.mp hd
  exact ⟨d, hmem, by simpa using hkeep, rfl⟩

/-- A stripped character other than the period does not occur in a normalized text. -/
theorem not_mem_normalizeSpec_of_stripped (s : String) (c : Char) (hc : isStripped c = true)
    (hne : c ≠ '.') : c ∉ (normalizeSpec s).data := by
  intro h
  obtain ⟨d, _, hkeep, hd⟩ := mem_normalizeSpec_data s c h
  unfold commaToPeriod at hd
  by_cases hcomma : d = ','
  · rw [if_pos hcomma] at hd
    exact hne hd.symm
  · rw [if_neg hcomma] at hd
    rw [hd, hc] at hkeep
    cases hkeep

/-- A normalized text has no comma. -/
theorem comma_not_mem_normalizeSpec (s : String) : ',' ∉ (normalizeSpec s).data := by
  intro h
  obtain ⟨d, _, _, hd⟩ := mem_normalizeSpec_data s ',' h
  unfold commaToPeriod at hd
  by_cases hcomma : d = ','
  · rw [if_pos hcomma] at hd
    revert hd
    decide
  · rw [if_neg hcomma] at hd
    exact hcomma hd

/-- The periods of a normalized list of characters are the commas of the input. -/
theorem count_period_normalized (l : List Char) :
    ((l.filter (fun c => !isStripped c)).map commaToPeriod).count '.' = l.count ',' := by
  induction l with
  | nil => rfl
  | cons c cs ih =>
    by_cases hcomma : c = ','
    · subst hcomma
      have hk : isStripped ',' = false := by decide
      simp only [List.filter_cons, hk, Bool.not_false, if_true, List.map_cons]
      have hp : commaToPeriod ',' = '.' := by decide
      rw [hp, List.count_cons_self, List.count_cons_self, ih]
    · by_cases hs : isStripped c = true
      · simp only [List.filter_cons, hs, Bool.not_true]
        rw [List.count_cons_of_ne (fun e => hcomma e.symm)]
        simpa using ih
      · have hs' : isStripped c = false := by simpa using hs
        have hne : c ≠ '.' := by
          intro e
          subst e
          revert hs'
          decide
        have hc : commaToPeriod c = c := by simp [commaToPeriod, hcomma]
        simp only [List.filter_cons, hs', Bool.not_false, if_true, List.map_cons, hc]
        rw [List.count_cons_of_ne (fun e => hne e.symm),
          List.count_cons_of_ne (fun e => hcomma e.symm), ih]


/-! ### Claims on the normalization (C5, C6, C15) -/

/-- C5, as stated, fails for a cell text that is not valid UTF-8: the bytes `C2 20 A0 31`
hold no U+00A0, the removal of the space joins `C2` and `A0`, and the string handed to
numeric parsing is U+00A0 followed by `1`: it still contains U+00A0, so it is not the text
with every U+00A0 removed. -/
theorem C5_removed_space_joins_bytes :
    normalize [0xC2, 0x20, 0xA0, 0x31] = utf8 "\u00a01"
      ∧ utf8 "\u00a0" <:+: normalize [0xC2, 0x20, 0xA0, 0x31]
      ∧ cellValue parseDecimal (regular_row Cadence.Yearly) (final_row Cadence.Yearly)
          joinedCell (mkAttr "class" "right_column")
        = .error (.parseFloat (utf8 "\u00a01"))
      ∧ GetTableData parseDecimal joinedCell Cadence.Yearly
        = .error (.parseFloat (utf8 "\u00a01")) :=
  ⟨by decide, ⟨[], utf8 "1", by decide⟩, by decide, by decide⟩

/-- C5, amended: for every raw cell text that is valid UTF-8, the string handed to numeric
parsing is the text with every U+00A0, space, euro sign and period removed and then every
comma replaced by a period; `1.234,56 €` becomes `1234.56` (value 1234.56), `0,00 €`
becomes `0.00` (value 0) and `100 €` becomes `100` (value 100). -/
theorem C5_normalized_text :
    (∀ s : String, normalize (utf8 s) = utf8 (normalizeSpec s))
      ∧ (∀ {F : Type} (PF : GoString → Option F) (rr fr : GoString) (n : Node)
          (attr : Attribute) (s : String),
          cellContent rr fr n attr = .ok (utf8 s) →
          cellValue PF rr fr n attr
            = match PF (utf8 (normalizeSpec s)) with
              | none => .error (.parseFloat (utf8 (normalizeSpec s)))
              | some value => .ok value)
      ∧ normalize (utf8 "1.234,56 €") = utf8 "1234.56"
      ∧ parseDecimal (utf8 "1234.56") = some 1234.56
      ∧ normalize (utf8 "0,00 €") = utf8 "0.00" ∧ parseDecimal (utf8 "0.00") = some 0
      ∧ normalize (utf8 "100 €") = utf8 "100" ∧ parseDecimal (utf8 "100") = some 100 := by
  refine ⟨normalize_utf8, ?_, by decide, by decide!, by decide, by decide, by decide,
    by decide⟩
  intro F PF rr fr n attr s h
  simp only [cellValue, h, normalize_utf8]

/-- C5, amended, at the regular cell with the text `1.234,56 €`. -/
theorem C5_normalized_text_cell :
    cellContent (regular_row Cadence.Yearly) (final_row Cadence.Yearly)
        (regularCell "right_column" "1.234,56 €") (mkAttr "class" "right_column")
      = .ok (utf8 "1.234,56 €")
      ∧ cellValue parseDecimal (regular_row Cadence.Yearly) (final_row Cadence.Yearly)
          (regularCell "right_column" "1.234,56 €") (mkAttr "class" "right_column")
        = (match parseDecimal (utf8 (normalizeSpec "1.234,56 €")) with
          | none => .error (.parseFloat (utf8 (normalizeSpec "1.234,56 €")))
          | some value => .ok value)
      ∧ normalizeSpec "1.234,56 €" = "1234.56" :=
  ⟨by decide,
    C5_normalized_text.2.1 parseDecimal _ _ (regularCell "right_column" "1.234,56 €")
      (mkAttr "class" "right_column") "1.234,56 €" (by decide),
    by decide⟩

/-- C6, as stated, fails: normalizing the normalized form of `0,00 €` drops the period that
the first pass made of the comma. -/
theorem C6_normalize_not_idempotent :
    normalize (utf8 "0,00 €") = utf8 "0.00"
      ∧ normalize (normalize (utf8 "0,00 €")) = utf8 "000"
      ∧ normalize (normalize (utf8 "0,00 €")) ≠ normalize (utf8 "0,00 €") := by
  decide

/-- C6, amended: on valid UTF-8, normalization is idempotent exactly on the texts without
a comma; on every string, valid UTF-8 or not, that has a comma byte a second pass changes
the result; and on a string without comma that is not valid UTF-8 a second pass can change
the result too: the bytes `C2 20 A0` give `C2 A0`, which gives the empty string. -/
theorem C6_normalize_idempotent_iff_no_comma :
    (∀ s : String, normalize (normalize (utf8 s)) = normalize (utf8 s) ↔ ',' ∉ s.data)
      ∧ (∀ b : GoString, (0x2C : UInt8) ∈ b → normalize (normalize b) ≠ normalize b)
      ∧ utf8 "," = [0x2C]
      ∧ normalize [0xC2, 0x20, 0xA0] = [0xC2, 0xA0]
      ∧ normalize (normalize [0xC2, 0x20, 0xA0]) = [] := by
  refine ⟨?_, ?_, by decide, by decide, by decide⟩
  · intro s
    rw [normalize_utf8, normalize_utf8, ← normalizeSpec_normalizeSpec_iff]
    constructor
    · exact utf8_injective _ _
    · intro h
      rw [h]
  · intro b hb heq
    have h1 := (normalize_bytes b).2.2
    have h2 := (normalize_bytes (normalize b)).2.2
    rw [heq, h1, List.count_eq_zero_of_not_mem (normalize_bytes b).2.1] at h2
    exact List.count_pos_iff.mpr hb |>.ne' h2

/-- C6, amended, at `100 €`, which has no comma, and at `1.234,56 €`, which has one. -/
theorem C6_normalize_idempotent_iff_no_comma_texts :
    normalize (normalize (utf8 "100 €")) = normalize (utf8 "100 €")
      ∧ normalize (normalize (utf8 "1.234,56 €")) ≠ normalize (utf8 "1.234,56 €") :=
  ⟨(C6_normalize_idempotent_iff_no_comma.1 "100 €").mpr (by decide),
    C6_normalize_idempotent_iff_no_comma.2.1 (utf8 "1.234,56 €") (by decide)⟩

/-- C15, as stated, fails for input that is not valid UTF-8: a removal can join bytes into
a character that later steps do not remove. The bytes `C2 20 A0` normalize to `C2 A0`, which
is U+00A0, and the bytes `E2 2E 82 AC` normalize to `E2 82 AC`, which is the euro sign. -/
theorem C15_joined_bytes_remain :
    normalize [0xC2, 0x20, 0xA0] = utf8 "\u00a0"
      ∧ normalize [0xE2, 0x2E, 0x82, 0xAC] = utf8 "€"
      ∧ utf8 "\u00a0" <:+: normalize [0xC2, 0x20, 0xA0]
      ∧ utf8 "€" <:+: normalize [0xE2, 0x2E, 0x82, 0xAC] :=
  ⟨by decide, by decide, ⟨[], [], by decide⟩, ⟨[], [], by decide⟩⟩

/-- C15, amended: for every input string the normalized string contains no space and no
comma, and it has as many periods as the input has commas; for every input string that is
valid UTF-8 it contains no U+00A0 and no euro sign either, and is the encoding of a text
without these characters; every period of the input is dropped, so `12.50` normalizes to
`1250`. -/
theorem C15_normalized_characters :
    (∀ s : GoString, ¬ utf8 " " <:+: normalize s ∧ ¬ utf8 "," <:+: normalize s
        ∧ (normalize s).count 0x2E = s.count 0x2C)
      ∧ utf8 "." = [0x2E] ∧ utf8 "," = [0x2C]
      ∧ (∀ s : String, ¬ utf8 "\u00a0" <:+: normalize (utf8 s)
          ∧ ¬ utf8 "€" <:+: normalize (utf8 s)
          ∧ ∃ t : String, normalize (utf8 s) = utf8 t
            ∧ '\u00a0' ∉ t.data ∧ ' ' ∉ t.data ∧ '€' ∉ t.data ∧ ',' ∉ t.data
            ∧ t.data.count '.' = s.data.count ',')
      ∧ normalize (utf8 "12.50") = utf8 "1250" := by
  have hsingle : ∀ (b : UInt8) (l : GoString), [b] <:+: l → b ∈ l := by
    rintro b l ⟨x, y, rfl⟩
    simp
  refine ⟨?_, by decide, by decide, ?_, by decide⟩
  · intro s
    obtain ⟨h1, h2, h3⟩ := normalize_bytes s
    exact ⟨fun h => h1 (hsingle _ _ h), fun h => h2 (hsingle _ _ h), h3⟩
  · intro s
    rw [normalize_utf8]
    refine ⟨?_, ?_, normalizeSpec s, rfl,
      not_mem_normalizeSpec_of_stripped s _ (by decide) (by decide),
      not_mem_normalizeSpec_of_stripped s _ (by decide) (by decide),
      not_mem_normalizeSpec_of_stripped s _ (by decide) (by decide),
      comma_not_mem_normalizeSpec s, count_period_normalized s.data⟩
    · intro h
      exact not_mem_normalizeSpec_of_stripped s '\u00a0' (by decide) (by decide)
        (mem_of_encodeRune_isInfix _ _ (by simpa [utf8] using h))
    · intro h
      exact not_mem_normalizeSpec_of_stripped s '€' (by decide) (by decide)
        (mem_of_encodeRune_isInfix _ _ (by simpa [utf8] using h))

/-! ### Extraction as a walk over the matched cells -/

section ExtractLemmas

variable {F : Type} (PF : GoString → Option F) (rr fr : GoString)

/-- Appending the values of a concatenation: first those of the left part. -/
theorem appendValues_append (l1 l2 : List (Node × Attribute)) (r : List F) :
    appendValues PF rr fr (l1 ++ l2) r
      = match appendValues PF rr fr l1 r with
        | .error e => .error e
        | .ok r1 => appendValues PF rr fr l2 r1 := by
  induction l1 generalizing r with
  | nil => rfl
  | cons p rest ih =>
    simp only [List.cons_append, appendValues]
    cases cellValue PF rr fr p.1 p.2 with
    | error e => rfl
    | ok v => exact ih _

/-- The attribute loop appends the values of the passing attributes in order. -/
theorem extractAttrs_eq (n : Node) (attrs : List Attribute) (r : List F) :
    extractAttrs PF rr fr n attrs r
      = appendValues PF rr fr ((attrs.filter (attrMatches rr fr)).map (fun a => (n, a))) r := by
  induction attrs generalizing r with
  | nil => rfl
  | cons a rest ih =>
    by_cases h : attrMatches rr fr a = true
    · simp only [extractAttrs, h, if_true, List.filter_cons, List.map_cons, appendValues]
      cases cellValue PF rr fr n a with
      | error e => rfl
      | ok v => exact ih _
    · simp only [extractAttrs, h, List.filter_cons]
      exact ih _

mutual

/-- The closure appends the values of the matched pairs of the tree in pre-order. -/
theorem extractText_eq (n : Node) (r : List F) :
    extractText PF rr fr n r = appendValues PF rr fr (preorderCells (attrMatches rr fr) n) r :=
  match n with
  | .mk t d attrs cs => by
    rw [extractText, preorderCells, appendValues_append]
    by_cases h : t = NodeType.ElementNode ∧ d = utf8 "td"
    · have hc : cellsOf (attrMatches rr fr) (.mk t d attrs cs)
          = (attrs.filter (attrMatches rr fr)).map (fun a => (Node.mk t d attrs cs, a)) := by
        simp [cellsOf, Node.«Type», Node.Data, Node.Attr, h]
      rw [if_pos h, hc, extractAttrs_eq]
      cases appendValues PF rr fr _ r with
      | error e => rfl
      | ok r1 => exact extractChildren_eq cs r1
    · have hc : cellsOf (attrMatches rr fr) (.mk t d attrs cs) = [] := by
        simp [cellsOf, Node.«Type», Node.Data, h]
      rw [if_neg h, hc]
      exact extractChildren_eq cs r

/-- The child loop appends the values of the matched pairs of the children in order. -/
theorem extractChildren_eq (cs : List Node) (r : List F) :
    extractChildren PF rr fr cs r
      = appendValues PF rr fr (preorderCellsList (attrMatches rr fr) cs) r :=
  match cs with
  | [] => by simp [extractChildren, preorderCellsList, appendValues]
  | c :: cs => by
    rw [extractChildren, preorderCellsList, appendValues_append, extractText_eq c r]
    cases appendValues PF rr fr _ r with
    | error e => rfl
    | ok r1 => exact extractChildren_eq cs r1

end

end ExtractLemmas

section MoreLemmas

variable {F : Type} (PF : GoString → Option F) (rr fr : GoString)

/-- When every pair has a value, all values are appended, one per pair and in order. -/
theorem appendValues_ok (l : List (Node × Attribute)) (r : List F)
    (h : ∀ p ∈ l, (cellValue PF rr fr p.1 p.2).isOk = true) :
    ∃ vs : List F, appendValues PF rr fr l r = .ok (r ++ vs)
      ∧ l.map (fun p => cellValue PF rr fr p.1 p.2) = vs.map Except.ok := by
  induction l generalizing r with
  | nil => exact ⟨[], by simp [appendValues], rfl⟩
  | cons p rest ih =>
    have hp := h p (List.mem_cons_self _ _)
    cases hv : cellValue PF rr fr p.1 p.2 with
    | error e => rw [hv] at hp; simp [Except.isOk, Except.toBool] at hp
    | ok v =>
      obtain ⟨vs, h1, h2⟩ := ih (r ++ [v]) (fun q hq => h q (List.mem_cons_of_mem _ hq))
      refine ⟨v :: vs, ?_, ?_⟩
      · simp only [appendValues, hv, h1, List.append_assoc, List.singleton_append]
      · simp only [List.map_cons, hv, h2]

/-- The extracted sequence is built from the matched pairs of the document. -/
theorem extractValues_eq (doc : Node) (cadence : Cadence) :
    extractValues PF doc cadence
      = appendValues PF (regular_row cadence) (final_row cadence)
          (matchedCells (regular_row cadence) (final_row cadence) doc) [] := by
  unfold extractValues matchedCells
  exact extractText_eq PF _ _ doc []

/-- When every matched cell parses, extraction succeeds with one value per matched pair. -/
theorem extractValues_ok (doc : Node) (cadence : Cadence) (h : allCellsParse PF doc cadence) :
    ∃ vs : List F, extractValues PF doc cadence = .ok vs
      ∧ (matchedCells (regular_row cadence) (final_row cadence) doc).map
          (fun p => cellValue PF (regular_row cadence) (final_row cadence) p.1 p.2)
        = vs.map Except.ok := by
  obtain ⟨vs, h1, h2⟩ := appendValues_ok PF _ _ _ [] h
  exact ⟨vs, by rw [extractValues_eq, h1, List.nil_append], h2⟩

/-- After a completed extraction the outcome is decided by the count alone. -/
theorem GetTableData_of_values (doc : Node) (cadence : Cadence) (vs : List F)
    (h : extractValues PF doc cadence = .ok vs) :
    ((∃ r, GetTableData PF doc cadence = .ok r) ↔ vs.length = 12)
      ∧ (vs.length ≠ 12 → GetTableData PF doc cadence = .error .rowAmountMismatch) := by
  have hne : vs.length ≠ 12 → GetTableData PF doc cadence = .error .rowAmountMismatch := by
    intro hl
    simp [GetTableData, h, TaxResult.NumField, hl]
  refine ⟨⟨?_, ?_⟩, hne⟩
  · rintro ⟨r, hr⟩
    by_contra hl
    rw [hne hl] at hr
    cases hr
  · intro hl
    match vs, hl with
    | [v0, v1, v2, v3, v4, v5, v6, v7, v8, v9, v10, v11], _ =>
      exact ⟨_, by simp [GetTableData, h, TaxResult.NumField, index, bind, Except.bind, pure, Except.pure]; rfl⟩

end MoreLemmas

/-! ### Pre-order listings -/

/-- Two tests that agree wherever a third one fails select the same pairs of a node when
the third selects none. -/
theorem cellsOf_congr (d t1 t2 : Attribute → Bool) (hd : ∀ a, d a = false → t1 a = t2 a)
    (n : Node) (h : cellsOf d n = []) : cellsOf t1 n = cellsOf t2 n := by
  unfold cellsOf at *
  by_cases htd : n.«Type» = NodeType.ElementNode ∧ n.Data = utf8 "td"
  · simp only [htd, and_self, if_true] at *
    have hf : n.Attr.filter d = [] := by simpa using h
    have hall : ∀ a ∈ n.Attr, d a = false := by
      intro a ha
      by_contra hne
      have : a ∈ n.Attr.filter d := List.mem_filter.mpr ⟨ha, by simpa using hne⟩
      rw [hf] at this
      cases this
    rw [List.filter_congr (fun a ha => hd a (hall a ha))]
  · simp only [htd, if_false]

mutual

/-- Agreement of two tests lifts from attributes to trees. -/
theorem preorderCells_congr (d t1 t2 : Attribute → Bool)
    (hd : ∀ a, d a = false → t1 a = t2 a) (n : Node) (h : preorderCells d n = []) :
    preorderCells t1 n = preorderCells t2 n :=
  match n with
  | .mk t dat attrs cs => by
    rw [preorderCells] at h
    obtain ⟨h1, h2⟩ := List.append_eq_nil.mp h
    rw [preorderCells, preorderCells, cellsOf_congr d t1 t2 hd _ h1,
      preorderCellsList_congr d t1 t2 hd cs h2]

/-- Agreement of two tests lifts from attributes to sequences of trees. -/
theorem preorderCellsList_congr (d t1 t2 : Attribute → Bool)
    (hd : ∀ a, d a = false → t1 a = t2 a) (cs : List Node) (h : preorderCellsList d cs = []) :
    preorderCellsList t1 cs = preorderCellsList t2 cs :=
  match cs with
  | [] => by simp [preorderCellsList]
  | c :: cs => by
    rw [preorderCellsList] at h
    obtain ⟨h1, h2⟩ := List.append_eq_nil.mp h
    rw [preorderCellsList, preorderCellsList, preorderCells_congr d t1 t2 hd c h1,
      preorderCellsList_congr d t1 t2 hd cs h2]

end

/-- Without stray final markers the test of line 105 selects the qualifying pairs. -/
theorem matchedCells_eq_qualifyingCells (doc : Node) (cadence : Cadence)
    (h : noStrayMarker cadence doc) :
    matchedCells (regular_row cadence) (final_row cadence) doc
      = qualifyingCells (regular_row cadence) (final_row cadence) doc := by
  unfold matchedCells qualifyingCells
  apply preorderCells_congr (strayMarker (final_row cadence))
  · intro a ha
    simp only [strayMarker, attrMatches, classMarker] at *
    cases hk : (a.Key == utf8 "class") <;> cases hv : (a.Val == final_row cadence) <;>
      simp_all
  · exact List.isEmpty_iff.mp h

/-- The markers of the two cadences are four different strings. -/
theorem markers_disjoint (v : GoString) :
    ¬ (isMarker Cadence.Monthly v = true ∧ isMarker Cadence.Yearly v = true) := by
  simp only [isMarker, Bool.or_eq_true, beq_iff_eq]
  rintro ⟨h1 | h1, h2 | h2⟩ <;> · rw [h1] at h2; revert h2; decide

/-- A test that fails on a list of attributes selects none of them. -/
theorem cellsOf_eq_nil (d t : Attribute → Bool) (hd : ∀ a, d a = false → t a = false)
    (n : Node) (h : cellsOf d n = []) : cellsOf t n = [] := by
  rw [cellsOf_congr d t (fun _ => false) hd n h]
  unfold cellsOf
  split <;> simp

mutual

/-- A test that fails wherever another selects nothing selects nothing in the tree. -/
theorem preorderCells_eq_nil (d t : Attribute → Bool) (hd : ∀ a, d a = false → t a = false)
    (n : Node) (h : preorderCells d n = []) : preorderCells t n = [] :=
  match n with
  | .mk ty dat attrs cs => by
    rw [preorderCells] at h
    obtain ⟨h1, h2⟩ := List.append_eq_nil.mp h
    rw [preorderCells, cellsOf_eq_nil d t hd _ h1, preorderCellsList_eq_nil d t hd cs h2]
    rfl

/-- A test that fails wherever another selects nothing selects nothing in the trees. -/
theorem preorderCellsList_eq_nil (d t : Attribute → Bool)
    (hd : ∀ a, d a = false → t a = false) (cs : List Node)
    (h : preorderCellsList d cs = []) : preorderCellsList t cs = [] :=
  match cs with
  | [] => by simp [preorderCellsList]
  | c :: cs => by
    rw [preorderCellsList] at h
    obtain ⟨h1, h2⟩ := List.append_eq_nil.mp h
    rw [preorderCellsList, preorderCells_eq_nil d t hd c h1,
      preorderCellsList_eq_nil d t hd cs h2]
    rfl

end

/-- A document that carries only marker classes of one cadence, and in which the final
marker of the other cadence is not the value of an attribute under another key, has no
matched pair under the other cadence. -/
theorem matchedCells_of_carriesOnly (doc : Node) (c c' : Cadence) (hne : c ≠ c')
    (h : carriesOnly c doc) (hs : noStrayMarker c' doc) :
    matchedCells (regular_row c') (final_row c') doc = [] := by
  rw [matchedCells_eq_qualifyingCells doc c' hs]
  unfold qualifyingCells
  apply preorderCells_eq_nil (foreignAttr c)
  · intro a ha
    by_contra hm
    have hm1 : classMarker (regular_row c') (final_row c') a = true := by simpa using hm
    simp only [classMarker, Bool.and_eq_true, Bool.or_eq_true] at hm1
    have hm' : isMarker c' a.Val = true := by
      simp only [isMarker, Bool.or_eq_true]
      exact hm1.2
    have hdis := markers_disjoint a.Val
    cases c <;> cases c' <;> simp_all [foreignAttr]
  · exact List.isEmpty_iff.mp h

section ExtractorClaims

variable {F : Type} (PF : GoString → Option F)

/-- A document without matched pair yields no value and fails the count check. -/
theorem GetTableData_of_no_match (doc : Node) (cadence : Cadence)
    (h : matchedCells (regular_row cadence) (final_row cadence) doc = []) :
    extractValues PF doc cadence = .ok []
      ∧ GetTableData PF doc cadence = .error .rowAmountMismatch := by
  have hv : extractValues PF doc cadence = .ok [] := by
    rw [extractValues_eq, h]; rfl
  exact ⟨hv, (GetTableData_of_values PF doc cadence [] hv).2 (by simp)⟩

/-- Off the slip of line 105: a document whose `td` cells carry only marker classes of one
cadence, and in which the final marker of the other cadence does not occur under a key
other than `class`, yields no value under the other cadence and fails the count check. -/
theorem GetTableData_of_other_cadence (doc : Node) (c c' : Cadence) (hne : c ≠ c')
    (h : carriesOnly c doc) (hs : noStrayMarker c' doc) :
    extractValues PF doc c' = .ok []
      ∧ GetTableData PF doc c' = .error .rowAmountMismatch :=
  GetTableData_of_no_match PF doc c' (matchedCells_of_carriesOnly doc c c' hne h hs)

end ExtractorClaims

set_option maxRecDepth 100000 in
/-- The stub documents under the other cadence: no value, count mismatch. -/
theorem GetTableData_stub_other_cadence :
    GetTableData parseDecimal monthlyStub Cadence.Yearly = .error .rowAmountMismatch
      ∧ GetTableData parseDecimal yearlyStub Cadence.Monthly = .error .rowAmountMismatch :=
  ⟨(GetTableData_of_other_cadence parseDecimal monthlyStub Cadence.Monthly Cadence.Yearly
      (by decide) (by decide) (by decide)).2,
    (GetTableData_of_other_cadence parseDecimal yearlyStub Cadence.Yearly Cadence.Monthly
      (by decide) (by decide) (by decide)).2⟩

/-! ### Claims on the table extractor (C1, C2, C3, C4, C7, C9) -/

/-- C1, at the failing input: the cell `<td title="right_column orange big"><b>1,00 €</b></td>`
has no class attribute, so it does not qualify, yet under yearly cadence the extracted
sequence holds its value 1. -/
theorem C1_marker_under_other_key_is_extracted :
    (qualifyingCells (regular_row Cadence.Yearly) (final_row Cadence.Yearly) strayCell).isEmpty
        = true
      ∧ extractValues parseDecimal strayCell Cadence.Yearly = .ok [1] := by
  decide

/-- C2: for every document tree and cadence in which the text of every matched cell parses
as a number, the extraction completes with one value per matched pair, and `GetTableData`
returns a record if and only if exactly twelve values were extracted; for every other
count it fails with the count-mismatch error `Row amount mismatch!`. -/
theorem C2_record_iff_twelve_values {F : Type} (PF : GoString → Option F) (doc : Node)
    (cadence : Cadence) (h : allCellsParse PF doc cadence) :
    ∃ vs : List F, extractValues PF doc cadence = .ok vs
      ∧ vs.length = (matchedCells (regular_row cadence) (final_row cadence) doc).length
      ∧ ((∃ r, GetTableData PF doc cadence = .ok r) ↔ vs.length = 12)
      ∧ (vs.length ≠ 12 → GetTableData PF doc cadence = .error .rowAmountMismatch)
      ∧ Failure.message .rowAmountMismatch = some "Row amount mismatch!" := by
  obtain ⟨vs, h1, h2⟩ := extractValues_ok PF doc cadence h
  have hlen := congrArg List.length h2
  simp only [List.length_map] at hlen
  obtain ⟨h3, h4⟩ := GetTableData_of_values PF doc cadence vs h1
  exact ⟨vs, h1, hlen.symm, h3, h4, rfl⟩

set_option maxRecDepth 100000 in
/-- C2 at the stub document, whose twelve cells all parse, under yearly cadence. -/
theorem C2_record_iff_twelve_values_stub :
    allCellsParse parseDecimal yearlyStub Cadence.Yearly
      ∧ ∃ vs : List ℚ, extractValues parseDecimal yearlyStub Cadence.Yearly = .ok vs
        ∧ vs.length
            = (matchedCells (regular_row Cadence.Yearly) (final_row Cadence.Yearly)
                yearlyStub).length
        ∧ ((∃ r, GetTableData parseDecimal yearlyStub Cadence.Yearly = .ok r) ↔ vs.length = 12)
        ∧ (vs.length ≠ 12 →
            GetTableData parseDecimal yearlyStub Cadence.Yearly = .error .rowAmountMismatch)
        ∧ Failure.message .rowAmountMismatch = some "Row amount mismatch!" :=
  ⟨by decide, C2_record_iff_twelve_values parseDecimal yearlyStub Cadence.Yearly (by decide)⟩

/-- C3: for every document from which exactly twelve values `v0 .. v11` are extracted, the
returned record maps them by position: Brutto is `v0`, GeldwerterVorteil `v1`,
Solidaritätszuschlag `v2`, Kirchensteuer `v3`, Lohnsteuer `v4`, Steuern `v5`,
Rentenversicherung `v6`, Arbeitslosenversicherung `v7`, Krankenversicherung `v8`,
Pflegeversicherung `v9`, SozialAbgaben `v10`, Netto `v11`. -/
theorem C3_positional_mapping {F : Type} (PF : GoString → Option F) (doc : Node)
    (cadence : Cadence) (v0 v1 v2 v3 v4 v5 v6 v7 v8 v9 v10 v11 : F)
    (h : extractValues PF doc cadence
      = .ok [v0, v1, v2, v3, v4, v5, v6, v7, v8, v9, v10, v11]) :
    GetTableData PF doc cadence
      = .ok { Brutto := v0
              GeldwerterVorteil := v1
              «Solidaritätszuschlag» := v2
              Kirchensteuer := v3
              Lohnsteuer := v4
              Steuern := v5
              Rentenversicherung := v6
              Arbeitslosenversicherung := v7
              Krankenversicherung := v8
              Pflegeversicherung := v9
              SozialAbgaben := v10
              Netto := v11 } := by
  simp [GetTableData, h, TaxResult.NumField, index, bind, Except.bind, pure, Except.pure]

set_option maxRecDepth 100000 in
/-- C3 at the stub document under yearly cadence: Brutto is 50000 and Netto is 35420.5. -/
theorem C3_positional_mapping_stub :
    extractValues parseDecimal yearlyStub Cadence.Yearly
        = .ok [50000, 0, 12.34, 56.78, 7000, 7069.12, 4650, 650, 4000, 45500, 4400, 35420.5]
      ∧ GetTableData parseDecimal yearlyStub Cadence.Yearly
        = .ok { Brutto := 50000
                GeldwerterVorteil := 0
                «Solidaritätszuschlag» := 12.34
                Kirchensteuer := 56.78
                Lohnsteuer := 7000
                Steuern := 7069.12
                Rentenversicherung := 4650
                Arbeitslosenversicherung := 650
                Krankenversicherung := 4000
                Pflegeversicherung := 45500
                SozialAbgaben := 4400
                Netto := 35420.5 } :=
  ⟨by decide!, C3_positional_mapping parseDecimal yearlyStub Cadence.Yearly _ _ _ _ _ _ _ _ _ _ _ _
    (by decide!)⟩

/-- C4, as stated, fails: a single cell contributes two values when two of its attributes
pass the marker test, as the cell with the class attribute twice does, and the regular
cell whose `title` has the final marker as value. -/
theorem C4_cell_contributes_two_values :
    extractValues parseDecimal doubleCell Cadence.Yearly = .ok [1, 1]
      ∧ extractValues parseDecimal twoMarkerCell Cadence.Yearly = .ok [1, 2] := by
  decide

/-- C4, amended: for every document tree and cadence in which the final marker occurs as
an attribute value of a `td` under the key `class` only and all matched cell texts parse,
the extracted sequence contains exactly one value per class attribute of a `td` that
equals a marker, listed in depth-first pre-order of the cells (a nested cell after its
ancestor) and, within a cell, in attribute order. -/
theorem C4_values_in_document_order {F : Type} (PF : GoString → Option F) (doc : Node)
    (cadence : Cadence) (hstray : noStrayMarker cadence doc)
    (hparse : allCellsParse PF doc cadence) :
    ∃ vs : List F, extractValues PF doc cadence = .ok vs
      ∧ (qualifyingCells (regular_row cadence) (final_row cadence) doc).map
          (fun p => cellValue PF (regular_row cadence) (final_row cadence) p.1 p.2)
        = vs.map Except.ok := by
  obtain ⟨vs, h1, h2⟩ := extractValues_ok PF doc cadence hparse
  rw [matchedCells_eq_qualifyingCells doc cadence hstray] at h2
  exact ⟨vs, h1, h2⟩

set_option maxRecDepth 100000 in
/-- C4, amended, at the stub document under yearly cadence. -/
theorem C4_values_in_document_order_stub :
    noStrayMarker Cadence.Yearly yearlyStub
      ∧ allCellsParse parseDecimal yearlyStub Cadence.Yearly
      ∧ ∃ vs : List ℚ, extractValues parseDecimal yearlyStub Cadence.Yearly = .ok vs
        ∧ (qualifyingCells (regular_row Cadence.Yearly) (final_row Cadence.Yearly)
              yearlyStub).map
            (fun p => cellValue parseDecimal (regular_row Cadence.Yearly)
              (final_row Cadence.Yearly) p.1 p.2)
          = vs.map Except.ok :=
  ⟨by decide, by decide,
    C4_values_in_document_order parseDecimal yearlyStub Cadence.Yearly (by decide) (by decide)⟩

set_option maxRecDepth 100000 in
/-- C7, at the failing input: the markers are as stated and no string is a marker of both
cadences, but a document of twelve cells
`<td class="right_column grey_bg" title="right_column orange big"><b>1,00 €</b></td>`, whose
cells carry the monthly regular marker as their only class, is extracted under yearly
cadence. The test of line 105 accepts the yearly final marker under the key `title`: twelve
values are extracted and a record is returned, where the claim has zero values and the
count-mismatch error. The same holds for yearly classes under monthly cadence. -/
theorem C7_other_cadence_document_is_extracted :
    (regular_row Cadence.Yearly = utf8 "right_column"
        ∧ final_row Cadence.Yearly = utf8 "right_column orange big"
        ∧ regular_row Cadence.Monthly = regular_row Cadence.Yearly ++ utf8 " grey_bg"
        ∧ final_row Cadence.Monthly = final_row Cadence.Yearly ++ utf8 " grey_bg")
      ∧ (∀ v : GoString,
          ¬ (isMarker Cadence.Monthly v = true ∧ isMarker Cadence.Yearly v = true))
      ∧ tdClasses monthlyTitled = List.replicate 12 (regular_row Cadence.Monthly)
      ∧ carriesOnly Cadence.Monthly monthlyTitled
      ∧ extractValues parseDecimal monthlyTitled Cadence.Yearly = .ok (List.replicate 12 1)
      ∧ GetTableData parseDecimal monthlyTitled Cadence.Yearly = .ok unitRecord
      ∧ tdClasses yearlyTitled = List.replicate 12 (regular_row Cadence.Yearly)
      ∧ carriesOnly Cadence.Yearly yearlyTitled
      ∧ extractValues parseDecimal yearlyTitled Cadence.Monthly = .ok (List.replicate 12 1)
      ∧ GetTableData parseDecimal yearlyTitled Cadence.Monthly = .ok unitRecord :=
  ⟨by decide, markers_disjoint, by decide, by decide, by decide, by decide, by decide,
    by decide, by decide, by decide⟩

/-- C9, at the failing input: a matched regular cell without child nodes,
`<td class="right_column"></td>`, ends `GetTableData` under yearly cadence with a nil
pointer dereference, which is neither a parse failure nor a count mismatch. -/
theorem C9_nil_dereference_on_empty_cell {F : Type} (PF : GoString → Option F) :
    GetTableData PF emptyCell Cadence.Yearly = .error .nilDereference := by
  rfl

/-! ### The failures of the extractor -/

section FailureLemmas

variable {F : Type} (PF : GoString → Option F) (rr fr : GoString)

/-- Reading the text of a matched pair fails only by the panic of line 109. -/
theorem cellContent_error (n : Node) (a : Attribute) (e : Failure)
    (h : cellContent rr fr n a = .error e) : e = .nilDereference := by
  unfold cellContent at h
  by_cases h1 : a.Val = rr
  · rw [if_pos h1] at h
    cases hc : n.FirstChild with
    | none => rw [hc] at h; cases h; rfl
    | some c => rw [hc] at h; cases h
  · rw [if_neg h1] at h
    by_cases h2 : a.Val = fr
    · rw [if_pos h2] at h; cases h
    · rw [if_neg h2] at h; cases h

/-- The value of a matched pair fails only by the panic of line 109 or by a parse
failure. -/
theorem cellValue_error (n : Node) (a : Attribute) (e : Failure)
    (h : cellValue PF rr fr n a = .error e) :
    e = .nilDereference ∨ ∃ s, e = .parseFloat s := by
  unfold cellValue at h
  cases hc : cellContent rr fr n a with
  | error e' =>
    rw [hc] at h
    cases h
    exact Or.inl (cellContent_error rr fr n a _ hc)
  | ok content =>
    rw [hc] at h
    cases hp : PF (normalize content) with
    | none => simp only [hp] at h; cases h; exact Or.inr ⟨_, rfl⟩
    | some v => simp only [hp] at h; cases h

/-- The walk over the matched pairs fails only as one of its values does. -/
theorem appendValues_error (l : List (Node × Attribute)) (r : List F) (e : Failure)
    (h : appendValues PF rr fr l r = .error e) :
    e = .nilDereference ∨ ∃ s, e = .parseFloat s := by
  induction l generalizing r with
  | nil => cases h
  | cons p rest ih =>
    rw [appendValues] at h
    split at h
    · rename_i e' hv
      cases h
      exact cellValue_error PF rr fr _ _ _ hv
    · exact ih _ h

/-- The failures of `GetTableData`: the count mismatch, a parse failure, or the nil
pointer dereference of line 109; the indexing of lines 147-158 never fails. -/
theorem GetTableData_error (doc : Node) (cadence : Cadence) (e : Failure)
    (h : GetTableData PF doc cadence = .error e) :
    e = .rowAmountMismatch ∨ e = .nilDereference ∨ ∃ s, e = .parseFloat s := by
  cases hv : extractValues PF doc cadence with
  | error e' =>
    have : e' = e := by
      simp only [GetTableData, hv] at h
      cases h; rfl
    subst this
    rw [extractValues_eq] at hv
    exact Or.inr (appendValues_error PF _ _ _ _ _ hv)
  | ok vs =>
    by_cases hl : vs.length = 12
    · obtain ⟨r, hr⟩ := (GetTableData_of_values PF doc cadence vs hv).1.mpr hl
      rw [hr] at h
      cases h
    · rw [(GetTableData_of_values PF doc cadence vs hv).2 hl] at h
      cases h
      exact Or.inl rfl

end FailureLemmas

/-! ### Range generator (C8) -/

/-- An integer in the range of `int` is its own reduction. -/
theorem wrapInt_of_range (x : Int) (h1 : minInt ≤ x) (h2 : x ≤ maxInt) : wrapInt x = x := by
  unfold wrapInt minInt maxInt at *
  omega

/-- The number of samples. -/
theorem samples_length (start stop : Int) :
    (samples start stop).length
      = if start ≤ stop then ((stop - start) / 1000).toNat + 1 else 0 := by
  unfold samples
  split <;> simp

/-- Every sample is at most `stop`. -/
theorem samples_le (start stop : Int) (i : Nat) (h : i < (samples start stop).length) :
    start + 1000 * (i : Int) ≤ stop := by
  rw [samples_length] at h
  split at h
  · omega
  · omega

/-- The value after the last sample is above `stop`. -/
theorem samples_next_gt (start stop : Int) :
    stop < start + 1000 * ((samples start stop).length : Int) := by
  rw [samples_length]
  split
  · push_cast
    omega
  · simp; omega

section RangeLemmas

variable {R : Type} (GetTaxData : Nat → Int → Cadence → Except Failure R)

/-- The loop from its `k`-th iteration on: when the next `m` samples stay at or below
`stop`, are fetched successfully and do not wrap, and the value after them is above `stop`,
the loop makes exactly these `m` calls and returns. -/
theorem rangeLoop_returns (f : Nat → R) (start stop : Int) (cadence : Cadence) (m : Nat) :
    ∀ (k fuel : Nat) (calls : List Int) (results : List R),
      calls.length = k →
      (∀ i, k ≤ i → i < k + m →
        start + 1000 * (i : Int) ≤ stop
          ∧ GetTaxData i (start + 1000 * (i : Int)) cadence = .ok (f i)
          ∧ wrapInt (start + 1000 * (i : Int) + 1000) = start + 1000 * ((i + 1 : Nat) : Int)) →
      stop < start + 1000 * ((k + m : Nat) : Int) →
      m < fuel →
      rangeLoop GetTaxData stop cadence fuel (start + 1000 * (k : Int)) calls results
        = .returned (calls ++ (List.range' k m).map (fun (i : Nat) => start + 1000 * (i : Int)))
            (results ++ (List.range' k m).map f) := by
  induction m with
  | zero =>
    intro k fuel calls results _ _ hgt hfuel
    obtain ⟨fuel', rfl⟩ : ∃ fuel', fuel = fuel' + 1 := ⟨fuel - 1, by omega⟩
    have hn : ¬ (start + 1000 * (k : Int) ≤ stop) := by simpa using hgt
    simp [rangeLoop, hn]
  | succ m ih =>
    intro k fuel calls results hlen hok hgt hfuel
    obtain ⟨fuel', rfl⟩ : ∃ fuel', fuel = fuel' + 1 := ⟨fuel - 1, by omega⟩
    obtain ⟨h1, h2, h3⟩ := hok k (Nat.le_refl _) (by omega)
    have hstep := ih (k + 1) fuel' (calls ++ [start + 1000 * (k : Int)]) (results ++ [f k])
      (by simp [hlen]) (fun i hi1 hi2 => hok i (by omega) (by omega))
      (by rw [show k + 1 + m = k + (m + 1) by omega]; exact hgt) (by omega)
    rw [rangeLoop, if_pos h1, hlen, h2]
    simp only []
    rw [h3, hstep]
    simp [List.range'_succ]

end RangeLemmas

/-- With `stop` at the largest `int` the loop condition always holds: as long as the
fetches succeed the loop keeps running, whatever the number of condition checks. -/
theorem rangeLoop_running_at_maxInt {R : Type} (f : Int → R) (cadence : Cadence) (fuel : Nat) :
    ∀ (gross : Int) (calls : List Int) (results : List R), gross ≤ maxInt →
      ∃ calls1 results1,
        rangeLoop (fun _ g _ => Except.ok (f g)) maxInt cadence fuel gross calls results
          = .running calls1 results1 := by
  induction fuel with
  | zero => intro gross calls results _; exact ⟨calls, results, rfl⟩
  | succ fuel ih =>
    intro gross calls results h
    rw [rangeLoop, if_pos h]
    exact ih _ _ _ (by unfold wrapInt maxInt; omega)

/-- C8, as stated, fails on the wrapping `int`: for `start = stop = maxInt` the claimed
sequence is the single value `maxInt`, but after the first call `gross += 1000` wraps to
`minInt + 999`, which is again at most `stop`, and further calls are made. -/
theorem C8_wraps_at_maxInt :
    samples maxInt maxInt = [maxInt]
      ∧ GetTaxDataRange (fun _ g _ => Except.ok g) 3 maxInt maxInt Cadence.Yearly
        = .running [maxInt, minInt + 999, minInt + 1999] [maxInt, minInt + 999, minInt + 1999] := by
  decide

/-- C8, amended: for all `int` values `start` and `stop` such that `start + 1000 * n` does
not exceed the largest `int`, where `n` is the number of values `start, start+1000, ...` at
most `stop` (the update after the last call does not wrap), and when every fetch returns a
record, the gross values for which `GetTaxDataRange` calls `GetTaxData` are exactly
`start, start+1000, ...` up to the largest such value at most `stop`, in that order, and
the returned slice holds the record of the `i`-th call at index `i`: there are
`(stop - start) / 1000 + 1` values when `start ≤ stop`, and none, with no fetch, when
`start > stop`. -/
theorem C8_range_samples {R : Type} (GetTaxData : Nat → Int → Cadence → Except Failure R)
    (f : Nat → R) (start stop : Int) (cadence : Cadence) (fuel : Nat)
    (hstart : minInt ≤ start)
    (hfit : start + 1000 * ((samples start stop).length : Int) ≤ maxInt)
    (hfetch : ∀ i, i < (samples start stop).length →
      GetTaxData i (start + 1000 * (i : Int)) cadence = .ok (f i))
    (hfuel : (samples start stop).length < fuel) :
    GetTaxDataRange GetTaxData fuel start stop cadence
        = .returned (samples start stop) ((List.range (samples start stop).length).map f)
      ∧ samples start stop
        = (List.range (samples start stop).length).map
            (fun (i : Nat) => start + 1000 * (i : Int))
      ∧ (samples start stop).length
        = (if start ≤ stop then ((stop - start) / 1000).toNat + 1 else 0)
      ∧ (∀ g ∈ samples start stop, g ≤ stop)
      ∧ stop < start + 1000 * ((samples start stop).length : Int) := by
  have hsamples : samples start stop
      = (List.range (samples start stop).length).map
          (fun (i : Nat) => start + 1000 * (i : Int)) := by
    unfold samples
    split <;> simp
  have hle : ∀ i, i < (samples start stop).length → start + 1000 * (i : Int) ≤ stop :=
    samples_le start stop
  refine ⟨?_, hsamples, samples_length start stop, ?_, samples_next_gt start stop⟩
  · have hloop := rangeLoop_returns GetTaxData f start stop cadence (samples start stop).length
      0 fuel [] [] rfl
      (fun i _ hi => by
        have hi' : i < (samples start stop).length := by omega
        have h1 := hle i hi'
        refine ⟨h1, hfetch i hi', ?_⟩
        rw [wrapInt_of_range _ (by unfold minInt at *; omega) (by omega)]
        push_cast
        ring)
      (by simpa using samples_next_gt start stop) hfuel
    unfold GetTaxDataRange
    simp only [Nat.cast_zero, mul_zero, add_zero, List.nil_append,
      ← List.range_eq_range'] at hloop
    rw [hloop]
    congr 1
    exact hsamples.symm
  · intro g hg
    rw [hsamples] at hg
    obtain ⟨i, hi, rfl⟩ := List.mem_map.mp hg
    exact hle i (List.mem_range.mp hi)

/-- C8, amended, at the range of `main`, 0 to 100000, which gives 101 records, and at the
range from `maxInt - 2000` to `maxInt - 500`, whose two samples are followed by the value
`maxInt`, which does not wrap. -/
theorem C8_range_samples_main :
    (samples 0 100000).length = 101
      ∧ GetTaxDataRange (fun _ g _ => Except.ok g) 102 0 100000 Cadence.Yearly
        = .returned (samples 0 100000)
            ((List.range (samples 0 100000).length).map (fun (i : Nat) => 1000 * (i : Int)))
      ∧ samples (maxInt - 2000) (maxInt - 500) = [maxInt - 2000, maxInt - 1000]
      ∧ GetTaxDataRange (fun _ g _ => Except.ok g) 3 (maxInt - 2000) (maxInt - 500)
          Cadence.Yearly
        = .returned (samples (maxInt - 2000) (maxInt - 500))
            ((List.range (samples (maxInt - 2000) (maxInt - 500)).length).map
              (fun (i : Nat) => maxInt - 2000 + 1000 * (i : Int))) :=
  ⟨by decide,
    (C8_range_samples (fun _ g _ => Except.ok g) (fun (i : Nat) => 1000 * (i : Int)) 0 100000
      Cadence.Yearly 102 (by decide) (by decide)
      (fun i _ => by simp) (by decide)).1,
    by decide,
    (C8_range_samples (fun _ g _ => Except.ok g)
      (fun (i : Nat) => maxInt - 2000 + 1000 * (i : Int)) (maxInt - 2000) (maxInt - 500)
      Cadence.Yearly 3 (by decide) (by decide)
      (fun i _ => rfl) (by decide)).1⟩

/-! ### Writer (C10) -/

section WriterLemmas

variable {F : Type} (env : WriterEnv F)

/-- The loop over a first part of the records whose serializations and writes all
succeed: their lines are appended and the loop goes on with the rest. -/
theorem writeLoop_append (pre rest : List (TaxResult F)) :
    ∀ (lines : List String) (file : String) (k : Nat),
      pre.map env.Marshal = lines.map Except.ok →
      (∀ p ∈ lines.enumFrom k, env.Write p.1 (p.2 ++ "\n") = none) →
      writeLoop env (pre ++ rest) file k
        = writeLoop env rest (file ++ concatLines lines) (k + pre.length) := by
  induction pre with
  | nil =>
    intro lines file k hl _
    cases lines with
    | nil => simp [concatLines]
    | cons l ls => simp at hl
  | cons m pre ih =>
    intro lines file k hl hw
    cases lines with
    | nil => simp at hl
    | cons l ls =>
      simp only [List.map_cons, List.cons.injEq] at hl
      obtain ⟨hm, hrest⟩ := hl
      have hw0 : env.Write k (l ++ "\n") = none :=
        hw (k, l) (by simp [List.enumFrom_cons])
      have hstep := ih ls (file ++ (l ++ "\n")) (k + 1) hrest
        (fun p hp => hw p (by simp [List.enumFrom_cons, hp]))
      have hk : k + 1 + pre.length = k + (m :: pre).length := by
        simp only [List.length_cons]; omega
      rw [List.cons_append, writeLoop, hm]
      simp only [hw0]
      rw [hstep, hk, concatLines]
      simp only [String.append_assoc]

/-- A serialization failure after a first part without failure: the cause is logged, the
function returns, and the file holds the lines of the first part only. -/
theorem writeLoop_marshal_failure (pre post : List (TaxResult F)) (m : TaxResult F)
    (lines : List String) (err : String)
    (hl : pre.map env.Marshal = lines.map Except.ok)
    (hw : ∀ p ∈ lines.enumFrom 0, env.Write p.1 (p.2 ++ "\n") = none)
    (hm : env.Marshal m = .error err) :
    writeLoop env (pre ++ m :: post) "" 0
      = { exit := .returned, log := ["Error encoding JSON: " ++ err],
          file := some (concatLines lines) } := by
  rw [writeLoop_append env pre (m :: post) lines "" 0 hl hw, writeLoop, hm]
  simp

/-- A write failure after a first part without failure: the cause is logged, the function
returns, and the file holds the lines of the first part and what the failed write wrote. -/
theorem writeLoop_write_failure (pre post : List (TaxResult F)) (m : TaxResult F)
    (lines : List String) (line err : String) (n : Nat)
    (hl : pre.map env.Marshal = lines.map Except.ok)
    (hw : ∀ p ∈ lines.enumFrom 0, env.Write p.1 (p.2 ++ "\n") = none)
    (hm : env.Marshal m = .ok line)
    (hf : env.Write pre.length (line ++ "\n") = some (n, err)) :
    writeLoop env (pre ++ m :: post) "" 0
      = { exit := .returned, log := ["Error writing to file: " ++ err],
          file := some (concatLines lines ++ (line ++ "\n").take n) } := by
  rw [writeLoop_append env pre (m :: post) lines "" 0 hl hw, writeLoop, hm]
  simp only [Nat.zero_add, hf]
  simp

end WriterLemmas

/-- C10, as stated, fails for the first of the three failures: when the output file cannot
be created, `WriteTaxResults` logs the cause through `log.Fatalf` and the process exits
with status 1 instead of returning. -/
theorem C10_create_failure_is_fatal :
    deniedEnv.Create = some "open steuer.jsonl: permission denied"
      ∧ WriteTaxResults deniedEnv [sampleRecord 1000 800]
        = { exit := .exited 1,
            log := ["Error creating file: open steuer.jsonl: permission denied"],
            file := none }
      ∧ (WriteTaxResults deniedEnv [sampleRecord 1000 800]).exit ≠ .returned := by
  decide

/-- C10, amended: for every result collection, a serialization failure of a record and a
failure of an individual write make `WriteTaxResults` log the cause and return, with no
later record serialized or written, without terminating the process; a failure to create
the output file is logged and terminates the process with status 1. -/
theorem C10_writer_failures {F : Type} (env : WriterEnv F) :
    (∀ (results : List (TaxResult F)) (err : String), env.Create = some err →
        WriteTaxResults env results
          = { exit := .exited 1, log := ["Error creating file: " ++ err], file := none })
      ∧ (∀ (pre post : List (TaxResult F)) (m : TaxResult F) (lines : List String)
          (err : String),
          env.Create = none →
          pre.map env.Marshal = lines.map Except.ok →
          (∀ p ∈ lines.enumFrom 0, env.Write p.1 (p.2 ++ "\n") = none) →
          env.Marshal m = .error err →
          WriteTaxResults env (pre ++ m :: post)
            = { exit := .returned, log := ["Error encoding JSON: " ++ err],
                file := some (concatLines lines) })
      ∧ (∀ (pre post : List (TaxResult F)) (m : TaxResult F) (lines : List String)
          (line err : String) (n : Nat),
          env.Create = none →
          pre.map env.Marshal = lines.map Except.ok →
          (∀ p ∈ lines.enumFrom 0, env.Write p.1 (p.2 ++ "\n") = none) →
          env.Marshal m = .ok line →
          env.Write pre.length (line ++ "\n") = some (n, err) →
          WriteTaxResults env (pre ++ m :: post)
            = { exit := .returned, log := ["Error writing to file: " ++ err],
                file := some (concatLines lines ++ (line ++ "\n").take n) }) := by
  refine ⟨?_, ?_, ?_⟩
  · intro results err hc
    simp [WriteTaxResults, hc]
  · intro pre post m lines err hc hl hw hm
    simp only [WriteTaxResults, hc]
    exact writeLoop_marshal_failure env pre post m lines err hl hw hm
  · intro pre post m lines line err n hc hl hw hm hf
    simp only [WriteTaxResults, hc]
    exact writeLoop_write_failure env pre post m lines line err n hl hw hm hf

/-- C10, amended, in three worlds: the file cannot be created; the second of three records
does not serialize; the second of three writes fails after one character. -/
theorem C10_writer_failures_worlds :
    WriteTaxResults deniedEnv [sampleRecord 1000 800]
        = { exit := .exited 1,
            log := ["Error creating file: open steuer.jsonl: permission denied"],
            file := none }
      ∧ WriteTaxResults marshalFailsEnv
          ([sampleRecord 0 0] ++ sampleRecord 1000 (-1) :: [sampleRecord 2000 1500])
        = { exit := .returned, log := ["Error encoding JSON: json: unsupported value"],
            file := some "\x7b\x7d\n" }
      ∧ WriteTaxResults writeFailsEnv
          ([sampleRecord 0 0] ++ sampleRecord 1000 800 :: [sampleRecord 2000 1500])
        = { exit := .returned,
            log := ["Error writing to file: write steuer.jsonl: no space left on device"],
            file := some "\x7b\x7d\n\x7b" } :=
  ⟨(C10_writer_failures deniedEnv).1 _ _ rfl,
    (C10_writer_failures marshalFailsEnv).2.1 [sampleRecord 0 0] [sampleRecord 2000 1500]
      (sampleRecord 1000 (-1)) ["\x7b\x7d"] "json: unsupported value" rfl (by decide) (by decide)
      (by decide),
    (C10_writer_failures writeFailsEnv).2.2 [sampleRecord 0 0] [sampleRecord 2000 1500]
      (sampleRecord 1000 800) ["\x7b\x7d"] "\x7b\x7d" "write steuer.jsonl: no space left on device" 1
      rfl (by decide) (by decide) (by decide) (by decide)⟩

/-! ### Form payload (C13) -/

/-- C13: the form payload `GetTaxData` submits does not depend on the cadence: for every
gross value and any two cadences the payloads are identical, and the payloads of any two
gross values differ only in the field `f_bruttolohn`, whose value is the decimal rendering
of the gross value; `f_abrechnungszeitraum` is always `jahr` and all other fields are the
fixed constants. -/
theorem C13_payload_independent_of_cadence :
    (∀ (g : Int) (c1 c2 : Cadence), payload g c1 = payload g c2)
      ∧ (∀ (g : Int) (c : Cadence),
          payload g c = ("f_bruttolohn", [Sprintf_d g]) :: fixedFields)
      ∧ (∀ (g1 g2 : Int) (c1 c2 : Cadence) (key : String), key ≠ "f_bruttolohn" →
          field (payload g1 c1) key = field (payload g2 c2) key)
      ∧ (∀ (g : Int) (c : Cadence), field (payload g c) "f_bruttolohn" = some [Sprintf_d g])
      ∧ (∀ (g : Int) (c : Cadence), field (payload g c) "f_abrechnungszeitraum" = some ["jahr"])
      ∧ Sprintf_d 0 = "0" ∧ Sprintf_d 100000 = "100000" ∧ Sprintf_d (-1000) = "-1000"
      ∧ (∀ {F : Type} (PF : GoString → Option F) (world : FetchEnv) (k : Nat) (g : Int)
          (c : Cadence) (err : String),
          world.PostForm k endpoint (("f_bruttolohn", [Sprintf_d g]) :: fixedFields)
            = .error err →
          GetTaxData PF world k g c = .error (.network err)) := by
  refine ⟨fun _ _ _ => rfl, fun _ _ => rfl, ?_, fun _ _ => rfl, fun _ _ => rfl,
    by decide, by decide, by decide, ?_⟩
  · intro g1 g2 c1 c2 key hkey
    have hk : (key == "f_bruttolohn") = false := by simpa using hkey
    simp only [field, payload, List.lookup_cons, hk]
  · intro F PF world k g c err h
    have hp : payload g c = ("f_bruttolohn", [Sprintf_d g]) :: fixedFields := rfl
    simp only [GetTaxData, hp, h]

/-! ### The text of a final cell (C14) -/

/-- The loop of lines 112-116 started with any text: the last bold child with a child
decides, and the starting text is kept when there is none. -/
theorem boldContent_eq (cs : List Node) (content : GoString) :
    boldContent cs content
      = match lastBold cs with
        | some b => firstChildData b
        | none => content := by
  induction cs generalizing content with
  | nil => rfl
  | cons c cs ih =>
    unfold lastBold at ih ⊢
    rw [boldContent]
    cases hfc : c.FirstChild with
    | none =>
      have hb : boldWithChild c = false := by simp [boldWithChild, hfc]
      have hstep : (match c.Data == utf8 "b", (none : Option Node) with
          | true, some t => boldContent cs t.Data
          | _, _ => boldContent cs content) = boldContent cs content := by
        cases (c.Data == utf8 "b") <;> rfl
      rw [hstep, ih, List.filter_cons_of_neg (by simpa using hb)]
    | some t =>
      cases hd : (c.Data == utf8 "b") with
      | false =>
        have hb : boldWithChild c = false := by simp [boldWithChild, hd]
        simp only []
        rw [ih, List.filter_cons_of_neg (by simpa using hb)]
      | true =>
        have hb : boldWithChild c = true := by simp [boldWithChild, hd, hfc]
        simp only []
        rw [ih, List.filter_cons_of_pos hb]
        cases hrest : (cs.filter boldWithChild).getLast? with
        | none =>
          have hnil : cs.filter boldWithChild = [] := List.getLast?_eq_none_iff.mp hrest
          simp [hnil, firstChildData, hfc]
        | some b =>
          have hne : cs.filter boldWithChild ≠ [] := by
            intro hnil
            rw [hnil] at hrest
            cases hrest
          obtain ⟨x, xs, hl⟩ := List.exists_cons_of_ne_nil hne
          rw [hl] at hrest ⊢
          rw [List.getLast?_cons_cons, hrest]

section FinalCell

variable {F : Type} (PF : GoString → Option F)

/-- A pair whose value fails makes the walk over the pairs fail. -/
theorem appendValues_error_of_mem (rr fr : GoString) (l : List (Node × Attribute))
    (p : Node × Attribute) (hp : p ∈ l) (e : Failure)
    (he : cellValue PF rr fr p.1 p.2 = .error e) (r : List F) :
    ∃ e', appendValues PF rr fr l r = .error e' := by
  induction l generalizing r with
  | nil => cases hp
  | cons q rest ih =>
    rw [appendValues]
    cases hq : cellValue PF rr fr q.1 q.2 with
    | error e' => exact ⟨e', rfl⟩
    | ok v =>
      rcases List.mem_cons.mp hp with h | h
      · subst h
        rw [he] at hq
        cases hq
      · exact ih h _

/-- The final marker of a cadence is not its regular marker. -/
theorem final_row_ne_regular_row (cadence : Cadence) :
    final_row cadence ≠ regular_row cadence := by
  cases cadence <;> decide

/-- C14: for every cell matched by the final marker, the raw text that is normalized is
reached by unwrapping one level of bold markup: it is the data of the first child of the
last direct child named `b` that has a child; text placed directly in the cell is ignored;
and a final cell without such a child yields the empty string, fails as a parse failure
and makes the extraction fail instead of being skipped. -/
theorem C14_final_cell_text (n : Node) (attr : Attribute) (cadence : Cadence)
    (hfinal : attr.Val = final_row cadence) (hempty : PF (utf8 "") = none) :
    cellContent (regular_row cadence) (final_row cadence) n attr = .ok (unwrappedText n)
      ∧ (∀ b, lastBold n.children = some b →
          b ∈ n.children ∧ boldWithChild b = true ∧ unwrappedText n = firstChildData b)
      ∧ unwrappedText n
        = unwrappedText (.mk n.«Type» n.Data n.Attr (n.children.filter boldWithChild))
      ∧ (lastBold n.children = none →
          unwrappedText n = utf8 ""
            ∧ cellValue PF (regular_row cadence) (final_row cadence) n attr
              = .error (.parseFloat (utf8 ""))
            ∧ ∀ doc, (n, attr) ∈ matchedCells (regular_row cadence) (final_row cadence) doc →
                ∃ e, extractValues PF doc cadence = .error e) := by
  have hne : ¬ attr.Val = regular_row cadence := by
    rw [hfinal]
    exact final_row_ne_regular_row cadence
  have hcontent : cellContent (regular_row cadence) (final_row cadence) n attr
      = .ok (unwrappedText n) := by
    unfold cellContent unwrappedText
    rw [if_neg hne, if_pos hfinal, boldContent_eq]
  refine ⟨hcontent, ?_, ?_, ?_⟩
  · intro b hb
    have hmem : b ∈ n.children.filter boldWithChild := by
      unfold lastBold at hb
      exact List.mem_of_getLast?_eq_some hb
    obtain ⟨h1, h2⟩ := List.mem_filter.mp hmem
    exact ⟨h1, h2, by simp [unwrappedText, hb]⟩
  · simp [unwrappedText, lastBold, Node.children, List.filter_filter]
  · intro hnone
    have htext : unwrappedText n = utf8 "" := by simp [unwrappedText, hnone]
    have hvalue : cellValue PF (regular_row cadence) (final_row cadence) n attr
        = .error (.parseFloat (utf8 "")) := by
      have hnorm : normalize (utf8 "") = utf8 "" := by decide
      simp only [cellValue, hcontent, htext, hnorm, hempty]
    refine ⟨htext, hvalue, ?_⟩
    intro doc hmem
    rw [extractValues_eq]
    exact appendValues_error_of_mem PF _ _ _ (n, attr) hmem _ hvalue []

end FinalCell

set_option maxRecDepth 100000 in
/-- C14 at a final cell with direct text only, and at a final cell with direct text and
two bold children. -/
theorem C14_final_cell_text_cells :
    cellContent (regular_row Cadence.Yearly) (final_row Cadence.Yearly) plainFinalCell
        (mkAttr "class" "right_column orange big") = .ok (utf8 "")
      ∧ GetTableData parseDecimal plainFinalCell Cadence.Yearly
        = .error (.parseFloat (utf8 ""))
      ∧ cellContent (regular_row Cadence.Yearly) (final_row Cadence.Yearly) twoBoldCell
        (mkAttr "class" "right_column orange big") = .ok (utf8 "2,00 €")
      ∧ extractValues parseDecimal twoBoldCell Cadence.Yearly = .ok [2] :=
  ⟨(C14_final_cell_text parseDecimal plainFinalCell (mkAttr "class" "right_column orange big")
      Cadence.Yearly (by decide) (by decide)).1,
    by decide,
    (C14_final_cell_text parseDecimal twoBoldCell (mkAttr "class" "right_column orange big")
      Cadence.Yearly (by decide) (by decide)).1,
    by decide⟩

/-! ### Termination of the range loop and aborted runs (C16, C11) -/

section RangeSteps

variable {R : Type} (GetTaxData : Nat → Int → Cadence → Except Failure R)

/-- The loop from its `k`-th iteration on, for `m` iterations whose samples stay at or
below `stop`, are fetched successfully and do not wrap: these `m` calls are made and the
loop stands at the next value. -/
theorem rangeLoop_steps (f : Nat → R) (start stop : Int) (cadence : Cadence) (m : Nat) :
    ∀ (k fuel : Nat) (calls : List Int) (results : List R),
      calls.length = k →
      (∀ i, k ≤ i → i < k + m →
        start + 1000 * (i : Int) ≤ stop
          ∧ GetTaxData i (start + 1000 * (i : Int)) cadence = .ok (f i)
          ∧ wrapInt (start + 1000 * (i : Int) + 1000) = start + 1000 * ((i + 1 : Nat) : Int)) →
      rangeLoop GetTaxData stop cadence (fuel + m) (start + 1000 * (k : Int)) calls results
        = rangeLoop GetTaxData stop cadence fuel (start + 1000 * ((k + m : Nat) : Int))
            (calls ++ (List.range' k m).map (fun (i : Nat) => start + 1000 * (i : Int)))
            (results ++ (List.range' k m).map f) := by
  induction m with
  | zero =>
    intro k fuel calls results _ _
    simp
  | succ m ih =>
    intro k fuel calls results hlen hok
    obtain ⟨h1, h2, h3⟩ := hok k (Nat.le_refl _) (by omega)
    have hstep := ih (k + 1) fuel (calls ++ [start + 1000 * (k : Int)]) (results ++ [f k])
      (by simp [hlen]) (fun i hi1 hi2 => hok i (by omega) (by omega))
    rw [show fuel + (m + 1) = (fuel + m) + 1 by omega, rangeLoop, if_pos h1, hlen, h2]
    simp only []
    rw [h3, hstep, show k + 1 + m = k + (m + 1) by omega]
    simp [List.range'_succ]

end RangeSteps

/-- A value just above the range of `int` wraps around by `2 ^ 64`. -/
theorem wrapInt_of_above (x : Int) (h1 : maxInt < x) (h2 : x ≤ maxInt + 1000) :
    wrapInt x = x - 2 ^ 64 := by
  unfold wrapInt maxInt at *
  omega

/-- C16, as stated, fails: for `start = maxInt - 1500` and `stop = maxInt - 1` the bound is
two iterations, but after the second one `gross += 1000` wraps to `minInt + 499`, which is
at most `stop`, and a third call is made. -/
theorem C16_counter_wraps_below_stop :
    (samples (maxInt - 1500) (maxInt - 1)).length = 2
      ∧ wrapInt (maxInt - 500 + 1000) = minInt + 499
      ∧ GetTaxDataRange (fun _ g _ => Except.ok g) 3 (maxInt - 1500) (maxInt - 1) Cadence.Yearly
        = .running [maxInt - 1500, maxInt - 500, minInt + 499]
            [maxInt - 1500, maxInt - 500, minInt + 499] := by
  decide

/-- C16, amended: for every `start` and `stop` of the 64-bit wrapping `int`, and when each
fetch returns, with `n` the number `(stop - start) / 1000 + 1` of samples when
`start ≤ stop` and zero otherwise: if `start + 1000 * n` does not exceed the largest `int`,
the loop of `GetTaxDataRange` terminates after exactly `n` iterations; otherwise the update
`gross += 1000` wraps after the `n`-th iteration to `start + 1000 * n - 2 ^ 64`, a value
at most `stop`, and the loop makes a further call. -/
theorem C16_loop_termination {R : Type} (f : Nat → Int → R) (start stop : Int)
    (cadence : Cadence) (hstart : minInt ≤ start ∧ start ≤ maxInt)
    (hstop : minInt ≤ stop ∧ stop ≤ maxInt) :
    (start + 1000 * ((samples start stop).length : Int) ≤ maxInt →
        ∃ results : List R,
          GetTaxDataRange (fun k g _ => Except.ok (f k g)) ((samples start stop).length + 1)
            start stop cadence
            = .returned (samples start stop) results
          ∧ results.length = (samples start stop).length)
      ∧ (maxInt < start + 1000 * ((samples start stop).length : Int) →
          start + 1000 * ((samples start stop).length : Int) - 2 ^ 64 ≤ stop
            ∧ ∃ results : List R,
              GetTaxDataRange (fun k g _ => Except.ok (f k g)) ((samples start stop).length + 1)
                start stop cadence
                = .running
                    (samples start stop
                      ++ [start + 1000 * ((samples start stop).length : Int) - 2 ^ 64])
                    results)
      ∧ (samples start stop).length
        = (if start ≤ stop then ((stop - start) / 1000).toNat + 1 else 0) := by
  have hsamples : samples start stop
      = (List.range (samples start stop).length).map
          (fun (i : Nat) => start + 1000 * (i : Int)) := by
    unfold samples
    split <;> simp
  have hle := samples_le start stop
  have hgt := samples_next_gt start stop
  refine ⟨?_, ?_, samples_length start stop⟩
  · intro hfit
    refine ⟨(List.range (samples start stop).length).map
      (fun (i : Nat) => f i (start + 1000 * (i : Int))), ?_, by simp⟩
    have hloop := rangeLoop_returns (fun k g _ => Except.ok (f k g))
      (fun (i : Nat) => f i (start + 1000 * (i : Int))) start stop cadence
      (samples start stop).length 0 ((samples start stop).length + 1) [] [] rfl
      (fun i _ hi => by
        have hi' : i < (samples start stop).length := by omega
        refine ⟨hle i hi', rfl, ?_⟩
        rw [wrapInt_of_range _ (by unfold minInt at *; omega) (by omega)]
        push_cast
        ring)
      (by simpa using hgt) (by omega)
    unfold GetTaxDataRange
    simp only [Nat.cast_zero, mul_zero, add_zero, List.nil_append,
      ← List.range_eq_range'] at hloop
    rw [hloop]
    congr 1
    exact hsamples.symm
  · intro hover
    obtain ⟨n, hn⟩ : ∃ n, (samples start stop).length = n + 1 := by
      cases hl : (samples start stop).length with
      | zero =>
        rw [hl] at hover
        simp at hover
        omega
      | succ n => exact ⟨n, rfl⟩
    have hlast := hle n (by omega)
    rw [hn] at hover hgt ⊢
    push_cast at hover hgt ⊢
    have hbelow : start + 1000 * ((n : Int) + 1) - 2 ^ 64 ≤ stop := by
      unfold maxInt minInt at *
      omega
    refine ⟨hbelow, ?_⟩
    have hsteps := rangeLoop_steps (fun k g _ => Except.ok (f k g))
      (fun (i : Nat) => f i (start + 1000 * (i : Int))) start stop cadence n 0 2 [] [] rfl
      (fun i _ hi => by
        have h1 := hle i (by omega)
        have h2 := hle (i + 1) (by omega)
        refine ⟨h1, rfl, ?_⟩
        push_cast at h2
        rw [wrapInt_of_range _ (by unfold minInt at *; omega) (by omega)]
        push_cast
        ring)
    have hwrap : wrapInt (start + 1000 * (n : Int) + 1000)
        = start + 1000 * ((n : Int) + 1) - 2 ^ 64 := by
      rw [wrapInt_of_above _ (by omega) (by omega)]
      ring
    unfold GetTaxDataRange
    simp only [Nat.cast_zero, mul_zero, add_zero, List.nil_append, Nat.zero_add,
      ← List.range_eq_range'] at hsteps
    rw [show n + 1 + 1 = 2 + n by omega, hsteps]
    rw [rangeLoop, if_pos hlast]
    simp only []
    rw [hwrap, rangeLoop, if_pos hbelow]
    simp only [rangeLoop]
    have hshape : ∀ (calls calls1 : List Int) (results : List R), calls = calls1 →
        ∃ results1 : List R,
          RangeOutcome.running calls results = RangeOutcome.running calls1 results1 := by
      rintro _ _ results rfl
      exact ⟨results, rfl⟩
    apply hshape
    rw [hsamples, hn, List.range_succ, List.map_append]
    simp

/-- C16, amended, at the range of `main`, which ends after 101 iterations, and at a range
whose last sample is within 1000 of the largest `int`, which wraps. -/
theorem C16_loop_termination_ranges :
    (∃ results : List Int,
        GetTaxDataRange (fun _ g _ => Except.ok g) ((samples 0 100000).length + 1) 0 100000
            Cadence.Yearly
          = .returned (samples 0 100000) results
        ∧ results.length = (samples 0 100000).length)
      ∧ (samples 0 100000).length = 101
      ∧ maxInt < maxInt - 1500
          + 1000 * (((samples (maxInt - 1500) (maxInt - 1)).length : Nat) : Int)
      ∧ maxInt - 1500
          + 1000 * (((samples (maxInt - 1500) (maxInt - 1)).length : Nat) : Int) - 2 ^ 64
        ≤ maxInt - 1 :=
  ⟨(C16_loop_termination (fun _ g => g) 0 100000 Cadence.Yearly (by decide) (by decide)).1
      (by decide),
    by decide, by decide,
    ((C16_loop_termination (fun (_ : Nat) (g : Int) => g) (maxInt - 1500) (maxInt - 1)
      Cadence.Yearly (by decide) (by decide)).2.1 (by decide)).1⟩

section AbortedRun

variable {F : Type} (PF : GoString → Option F) (world : FetchEnv)

/-- The ways in which `GetTaxData` fails: the request fails, the body does not parse, or
the table extraction fails on the parsed document. -/
theorem GetTaxData_error (k : Nat) (gross : Int) (cadence : Cadence) (e : Failure)
    (h : GetTaxData PF world k gross cadence = .error e) :
    (∃ err, world.PostForm k endpoint (payload gross cadence) = .error err
        ∧ e = .network err)
      ∨ (∃ body err, world.PostForm k endpoint (payload gross cadence) = .ok body
        ∧ world.Parse body = .error err ∧ e = .htmlParse err)
      ∨ (∃ body doc, world.PostForm k endpoint (payload gross cadence) = .ok body
        ∧ world.Parse body = .ok doc ∧ GetTableData PF doc cadence = .error e) := by
  unfold GetTaxData at h
  cases hp : world.PostForm k endpoint (payload gross cadence) with
  | error err =>
    rw [hp] at h
    cases h
    exact Or.inl ⟨err, rfl, rfl⟩
  | ok body =>
    rw [hp] at h
    cases hd : world.Parse body with
    | error err =>
      simp only [hd] at h
      cases h
      exact Or.inr (Or.inl ⟨body, err, rfl, hd, rfl⟩)
    | ok doc =>
      simp only [hd] at h
      exact Or.inr (Or.inr ⟨body, doc, rfl, hd, h⟩)

/-- C11: for every range and cadence, if the fetch or the extraction fails for a sampled
gross value, the first such failure ends the run at that sample: `GetTaxDataRange` yields
no result collection, the samples after it are not fetched, `WriteTaxResults` is not
invoked, and the output file is neither created nor truncated. -/
theorem C11_run_aborts_at_failing_sample (env : WriterEnv F) (f : Nat → TaxResult F)
    (start stop : Int) (cadence : Cadence) (k fuel : Nat) (e : Failure)
    (hstart : minInt ≤ start) (hstop : stop ≤ maxInt)
    (hk : k < (samples start stop).length)
    (hok : ∀ i, i < k → GetTaxData PF world i (start + 1000 * (i : Int)) cadence = .ok (f i))
    (hfail : GetTaxData PF world k (start + 1000 * (k : Int)) cadence = .error e)
    (hfuel : k < fuel) :
    GetTaxDataRange (GetTaxData PF world) fuel start stop cadence
        = .fatal ((List.range (k + 1)).map (fun (i : Nat) => start + 1000 * (i : Int))) e
      ∧ run PF world env fuel start stop cadence
        = .aborted ((List.range (k + 1)).map (fun (i : Nat) => start + 1000 * (i : Int))) e
      ∧ (run PF world env fuel start stop cadence).writerInvoked = false
      ∧ (run PF world env fuel start stop cadence).file = none
      ∧ (samples start stop).take (k + 1)
        = (List.range (k + 1)).map (fun (i : Nat) => start + 1000 * (i : Int)) := by
  have hle := samples_le start stop
  have hrange : GetTaxDataRange (GetTaxData PF world) fuel start stop cadence
      = .fatal ((List.range (k + 1)).map (fun (i : Nat) => start + 1000 * (i : Int))) e := by
    obtain ⟨fuel1, rfl⟩ : ∃ fuel1, fuel = (fuel1 + 1) + k := ⟨fuel - 1 - k, by omega⟩
    have hsteps := rangeLoop_steps (GetTaxData PF world) f start stop cadence k 0 (fuel1 + 1)
      [] [] rfl
      (fun i _ hi => by
        have h1 := hle i (by omega)
        have h2 := hle (i + 1) (by omega)
        refine ⟨h1, hok i (by omega), ?_⟩
        push_cast at h2
        rw [wrapInt_of_range _ (by unfold minInt at *; omega) (by omega)]
        push_cast
        ring)
    unfold GetTaxDataRange
    simp only [Nat.cast_zero, mul_zero, add_zero, List.nil_append, Nat.zero_add,
      ← List.range_eq_range'] at hsteps
    rw [hsteps, rangeLoop, if_pos (hle k hk)]
    simp only [List.length_map, List.length_range, hfail]
    rw [List.range_succ, List.map_append]
    simp
  have hrun : run PF world env fuel start stop cadence
      = .aborted ((List.range (k + 1)).map (fun (i : Nat) => start + 1000 * (i : Int))) e := by
    simp only [run, hrange]
  refine ⟨hrange, hrun, by rw [hrun]; rfl, by rw [hrun]; rfl, ?_⟩
  have hsamples : samples start stop
      = (List.range (samples start stop).length).map
          (fun (i : Nat) => start + 1000 * (i : Int)) := by
    unfold samples
    split <;> simp
  rw [hsamples, ← List.map_take, List.take_range]
  have hmin : min (k + 1) (samples start stop).length = k + 1 := Nat.min_eq_left (by omega)
  rw [hmin]

end AbortedRun

set_option maxRecDepth 100000 in
/-- The table extraction on the yearly stub document gives the stub record. -/
theorem GetTableData_yearlyStub :
    GetTableData parseDecimal yearlyStub Cadence.Yearly = .ok stubRecord := by
  decide!

/-- C11 in a world whose third request fails, for the range of `main`: three requests are
made, no record is written, the output file is not touched. -/
theorem C11_run_aborts_third_request :
    (samples 0 100000).length = 101
      ∧ run parseDecimal thirdRequestFails marshalFailsEnv 200 0 100000 Cadence.Yearly
        = .aborted ((List.range 3).map (fun (i : Nat) => 0 + 1000 * (i : Int)))
            (.network "connection refused")
      ∧ (List.range 3).map (fun (i : Nat) => 0 + 1000 * (i : Int)) = [0, 1000, 2000]
      ∧ (run parseDecimal thirdRequestFails marshalFailsEnv 200 0 100000
          Cadence.Yearly).file = none :=
  have h := C11_run_aborts_at_failing_sample parseDecimal thirdRequestFails marshalFailsEnv
    (fun _ => stubRecord) 0 100000 Cadence.Yearly 2 200 (.network "connection refused")
    (by decide) (by decide) (by decide)
    (fun i hi => by
      have hi2 : ¬ i = 2 := by omega
      simp only [GetTaxData, thirdRequestFails, hi2, if_false]
      exact GetTableData_yearlyStub)
    rfl (by decide)
  ⟨by decide, h.2.1, by decide, h.2.2.2.1⟩

/-! ### The lines written (C12) -/

/-- Texts without a newline joined by commas have no newline. -/
theorem joinComma_no_newline (l : List String) (h : ∀ s ∈ l, '\n' ∉ s.data) :
    '\n' ∉ (joinComma l).data := by
  induction l with
  | nil => simp [joinComma]
  | cons a rest ih =>
    cases rest with
    | nil => simpa [joinComma] using h a (List.mem_cons_self _ _)
    | cons b rest =>
      have h1 := h a (List.mem_cons_self _ _)
      have h2 := ih (fun s hs => h s (List.mem_cons_of_mem _ hs))
      simp only [joinComma, String.data_append, List.mem_append, not_or]
      exact ⟨⟨h1, by decide⟩, h2⟩

/-- An object whose keys and values have no newline has no newline. -/
theorem objectText_no_newline (members : List (String × String))
    (h : ∀ p ∈ members, '\n' ∉ p.1.data ∧ '\n' ∉ p.2.data) :
    '\n' ∉ (objectText members).data := by
  unfold objectText
  simp only [String.data_append, List.mem_append, not_or]
  refine ⟨⟨by decide, ?_⟩, by decide⟩
  apply joinComma_no_newline
  intro s hs
  obtain ⟨p, hp, rfl⟩ := List.mem_map.mp hs
  obtain ⟨h1, h2⟩ := h p hp
  unfold jsonMember
  simp only [String.data_append, List.mem_append, not_or]
  exact ⟨⟨⟨by decide, h1⟩, by decide⟩, h2⟩

/-- The newlines of a text made of lines without newline count the lines. -/
theorem count_newline_concatLines (lines : List String) (h : ∀ l ∈ lines, '\n' ∉ l.data) :
    (concatLines lines).data.count '\n' = lines.length := by
  induction lines with
  | nil => rfl
  | cons l ls ih =>
    have h1 := h l (List.mem_cons_self _ _)
    have h2 := ih (fun x hx => h x (List.mem_cons_of_mem _ hx))
    simp only [concatLines, String.data_append, List.count_append, h2, List.length_cons]
    rw [List.count_eq_zero_of_not_mem h1]
    have hn : List.count '\n' ("\n" : String).data = 1 := by decide
    rw [hn]
    omega

section MarshalLemmas

variable {F : Type} (enc : F → Except String String)

/-- The encodings of a sequence of values, when all succeed: one per value, in order. -/
theorem encodeAll_ok (vs : List F) (ss : List String) (h : encodeAll enc vs = .ok ss) :
    vs.map enc = ss.map Except.ok := by
  induction vs generalizing ss with
  | nil =>
    simp only [encodeAll] at h
    cases h
    rfl
  | cons v vs ih =>
    rw [encodeAll] at h
    cases hv : enc v with
    | error err => rw [hv] at h; cases h
    | ok s =>
      rw [hv] at h
      cases hrest : encodeAll enc vs with
      | error err => simp only [hrest] at h; cases h
      | ok rest =>
        simp only [hrest] at h
        cases h
        simp only [List.map_cons, ih rest hrest, hv]

/-- A serialized record: the object of the twelve keys, in order, with the encodings of
the twelve field values. -/
theorem Marshal_ok (m : TaxResult F) (line : String) (h : Marshal enc m = .ok line) :
    ∃ ss : List String, m.values.map enc = ss.map Except.ok ∧ ss.length = 12
      ∧ line = objectText (jsonKeys.zip ss)
      ∧ (jsonKeys.zip ss).map Prod.fst = jsonKeys := by
  unfold Marshal at h
  cases hall : encodeAll enc m.values with
  | error err => rw [hall] at h; cases h
  | ok ss =>
    rw [hall] at h
    cases h
    have hmap := encodeAll_ok enc m.values ss hall
    have hlen : ss.length = 12 := by
      have := congrArg List.length hmap
      simpa [TaxResult.values] using this.symm
    refine ⟨ss, hmap, hlen, rfl, ?_⟩
    rw [List.map_fst_zip]
    rw [hlen]
    decide

/-- A serialized record has no newline when the encodings of its values have none. -/
theorem Marshal_no_newline (henc : ∀ v s, enc v = .ok s → '\n' ∉ s.data)
    (m : TaxResult F) (line : String) (h : Marshal enc m = .ok line) :
    '\n' ∉ line.data := by
  obtain ⟨ss, hmap, hlen, rfl, hkeys⟩ := Marshal_ok enc m line h
  apply objectText_no_newline
  intro p hp
  constructor
  · have hk : p.1 ∈ jsonKeys := by
      rw [← hkeys]
      exact List.mem_map_of_mem _ hp
    revert hk
    generalize p.1 = key
    intro hk
    simp only [jsonKeys, List.mem_cons, List.mem_singleton, List.not_mem_nil, or_false] at hk
    rcases hk with h | h | h | h | h | h | h | h | h | h | h | h <;> subst h <;> decide
  · have hs : p.2 ∈ ss := (List.of_mem_zip hp).2
    have hok : Except.ok p.2 ∈ m.values.map enc := by
      rw [hmap]
      exact List.mem_map_of_mem _ hs
    obtain ⟨v, _, hv⟩ := List.mem_map.mp hok
    exact henc v p.2 hv

end MarshalLemmas

/-- C12, as stated, fails in its last part: when the write of the second record fails after
five characters, the file holds the line of the first record followed by the first five
characters of the second line, not the line of the first record alone. -/
theorem C12_failed_write_leaves_partial_line :
    Marshal encodeDecimal (sampleRecord 1000 800)
        = .ok (objectText [("brutto", "1000"), ("geldwertervorteil", "0"),
            ("solidaritätszuschlag", "0"), ("kirchensteuer", "0"), ("lohnsteuer", "0"),
            ("steuern", "0"), ("rentenversicherung", "0"), ("arbeitslosenversicherung", "0"),
            ("krankenversicherung", "0"), ("pflegeversicherung", "0"), ("sozialabgaben", "0"),
            ("netto", "800")])
      ∧ (WriteTaxResults partialWriteEnv
          [sampleRecord 1000 800, sampleRecord 2000 1500, sampleRecord 3000 2000]).file
        = some (concatLines [objectText [("brutto", "1000"), ("geldwertervorteil", "0"),
            ("solidaritätszuschlag", "0"), ("kirchensteuer", "0"), ("lohnsteuer", "0"),
            ("steuern", "0"), ("rentenversicherung", "0"), ("arbeitslosenversicherung", "0"),
            ("krankenversicherung", "0"), ("pflegeversicherung", "0"), ("sozialabgaben", "0"),
            ("netto", "800")]] ++ "\x7b\x22bru")
      ∧ (WriteTaxResults partialWriteEnv
          [sampleRecord 1000 800, sampleRecord 2000 1500, sampleRecord 3000 2000]).file
        ≠ some (concatLines [objectText [("brutto", "1000"), ("geldwertervorteil", "0"),
            ("solidaritätszuschlag", "0"), ("kirchensteuer", "0"), ("lohnsteuer", "0"),
            ("steuern", "0"), ("rentenversicherung", "0"), ("arbeitslosenversicherung", "0"),
            ("krankenversicherung", "0"), ("pflegeversicherung", "0"), ("sozialabgaben", "0"),
            ("netto", "800")]]) := by
  decide!

/-- C12, amended: for every result collection for which creation, serialization and all
writes succeed, the contents written to the freshly created file are the concatenation, in
collection order, of each record's compact JSON object followed by one newline: there are
as many lines as records, and each object has the twelve keys in declaration order with the
encoded field values; if the write of a record fails, the file holds the lines of the
records before it followed by the characters of its line that the failed write wrote, and
no later record is serialized or written. -/
theorem C12_lines_written {F : Type} (enc : F → Except String String) (env : WriterEnv F)
    (hM : env.Marshal = Marshal enc) (hc : env.Create = none) :
    (∀ (results : List (TaxResult F)) (lines : List String),
        results.map (Marshal enc) = lines.map Except.ok →
        (∀ p ∈ lines.enumFrom 0, env.Write p.1 (p.2 ++ "\n") = none) →
        WriteTaxResults env results
            = { exit := .returned, log := [], file := some (concatLines lines) }
          ∧ lines.length = results.length
          ∧ ((∀ v s, enc v = .ok s → '\n' ∉ s.data) →
              (concatLines lines).data.count '\n' = results.length))
      ∧ (∀ (m : TaxResult F) (line : String), Marshal enc m = .ok line →
          ∃ ss : List String, m.values.map enc = ss.map Except.ok ∧ ss.length = 12
            ∧ line = objectText (jsonKeys.zip ss)
            ∧ (jsonKeys.zip ss).map Prod.fst = jsonKeys)
      ∧ (∀ (pre post : List (TaxResult F)) (m : TaxResult F) (lines : List String)
          (line err : String) (n : Nat),
          pre.map (Marshal enc) = lines.map Except.ok →
          (∀ p ∈ lines.enumFrom 0, env.Write p.1 (p.2 ++ "\n") = none) →
          Marshal enc m = .ok line →
          env.Write pre.length (line ++ "\n") = some (n, err) →
          WriteTaxResults env (pre ++ m :: post)
            = { exit := .returned, log := ["Error writing to file: " ++ err],
                file := some (concatLines lines ++ (line ++ "\n").take n) }) := by
  refine ⟨?_, Marshal_ok enc, ?_⟩
  · intro results lines hl hw
    have hlen : lines.length = results.length := by
      have := congrArg List.length hl
      simpa using this.symm
    refine ⟨?_, hlen, ?_⟩
    · have happ := writeLoop_append env results [] lines "" 0 (by rw [hM]; exact hl) hw
      simp only [WriteTaxResults, hc]
      rw [← List.append_nil results, happ, writeLoop]
      simp
    · intro henc
      rw [← hlen]
      apply count_newline_concatLines
      intro l hmem
      have hok : Except.ok l ∈ results.map (Marshal enc) := by
        rw [hl]
        exact List.mem_map_of_mem _ hmem
      obtain ⟨m, _, hm⟩ := List.mem_map.mp hok
      exact Marshal_no_newline enc henc m l hm
  · intro pre post m lines line err n hl hw hm hf
    simp only [WriteTaxResults, hc]
    exact writeLoop_write_failure env pre post m lines line err n (by rw [hM]; exact hl) hw
      (by rw [hM]; exact hm) hf

/-- C12, amended, in a world where all writes succeed, for the stub record followed by
another record, and in a world where the second write fails after five characters. -/
theorem C12_lines_written_worlds :
    WriteTaxResults jsonEnv [stubRecord, sampleRecord 2000 1500]
        = { exit := .returned, log := [],
            file := some (concatLines
              [objectText [("brutto", "50000"), ("geldwertervorteil", "0"),
                ("solidaritätszuschlag", "12.34"), ("kirchensteuer", "56.78"),
                ("lohnsteuer", "7000"), ("steuern", "7069.12"),
                ("rentenversicherung", "4650"), ("arbeitslosenversicherung", "650"),
                ("krankenversicherung", "4000"), ("pflegeversicherung", "45500"),
                ("sozialabgaben", "4400"), ("netto", "35420.5")],
               objectText [("brutto", "2000"), ("geldwertervorteil", "0"),
                ("solidaritätszuschlag", "0"), ("kirchensteuer", "0"), ("lohnsteuer", "0"),
                ("steuern", "0"), ("rentenversicherung", "0"),
                ("arbeitslosenversicherung", "0"), ("krankenversicherung", "0"),
                ("pflegeversicherung", "0"), ("sozialabgaben", "0"), ("netto", "1500")]]) }
      ∧ objectText [("brutto", "2000"), ("netto", "1500")]
        = "\x7b\x22brutto\x22:2000,\x22netto\x22:1500\x7d"
      ∧ (WriteTaxResults partialWriteEnv
          ([sampleRecord 1000 800] ++ sampleRecord 2000 1500 :: [sampleRecord 3000 2000])).log
        = ["Error writing to file: write steuer.jsonl: no space left on device"] :=
  ⟨((C12_lines_written encodeDecimal jsonEnv rfl rfl).1 [stubRecord, sampleRecord 2000 1500]
      _ (by decide!) (by decide)).1,
    by decide,
    congrArg WriterOutcome.log
      ((C12_lines_written encodeDecimal partialWriteEnv rfl rfl).2.2 [sampleRecord 1000 800]
        [sampleRecord 3000 2000] (sampleRecord 2000 1500)
        [objectText [("brutto", "1000"), ("geldwertervorteil", "0"),
          ("solidaritätszuschlag", "0"), ("kirchensteuer", "0"), ("lohnsteuer", "0"),
          ("steuern", "0"), ("rentenversicherung", "0"), ("arbeitslosenversicherung", "0"),
          ("krankenversicherung", "0"), ("pflegeversicherung", "0"), ("sozialabgaben", "0"),
          ("netto", "800")]]
        (objectText [("brutto", "2000"), ("geldwertervorteil", "0"),
          ("solidaritätszuschlag", "0"), ("kirchensteuer", "0"), ("lohnsteuer", "0"),
          ("steuern", "0"), ("rentenversicherung", "0"), ("arbeitslosenversicherung", "0"),
          ("krankenversicherung", "0"), ("pflegeversicherung", "0"), ("sozialabgaben", "0"),
          ("netto", "1500")])
        "write steuer.jsonl: no space left on device" 5
        (by decide!) (by decide) (by decide!) (by decide))⟩

/-- C13 at two requests: a fixed field agrees for different gross values and cadences, and
a request that fails was made with the payload of the gross value. -/
theorem C13_payload_independent_of_cadence_requests :
    "f_kirche" ≠ "f_bruttolohn"
      ∧ field (payload 1000 Cadence.Monthly) "f_kirche"
        = field (payload 99000 Cadence.Yearly) "f_kirche"
      ∧ thirdRequestFails.PostForm 2 endpoint (("f_bruttolohn", [Sprintf_d 2000]) :: fixedFields)
        = .error "connection refused"
      ∧ GetTaxData parseDecimal thirdRequestFails 2 2000 Cadence.Monthly
        = .error (.network "connection refused") :=
  ⟨by decide,
    C13_payload_independent_of_cadence.2.2.1 1000 99000 Cadence.Monthly Cadence.Yearly
      "f_kirche" (by decide),
    rfl,
    C13_payload_independent_of_cadence.2.2.2.2.2.2.2.2 parseDecimal thirdRequestFails 2 2000
      Cadence.Monthly "connection refused" rfl⟩

end GrossToNet
